import Mathlib

/-!
Verification of the task data store and scheduling logic of the
"planificateur-travaux" application.

The repository has two interchangeable storage backends:

* a file backend (`data.py`): the whole store is a Python dict mapping a
  zone name to a list of task dicts, persisted as JSON on every mutation;
* a relational backend (`db.py`): an SQLite database with a `zones` table
  (id, unique name) and a `taches` table
  (id, zone_id, titre, statut, priorite, duree_estimee, date_debut, date_fin)
  with a UNIQUE (zone_id, titre) constraint.

Modelling conventions:

* Calendar instants (Python `datetime`) and durations in days are modelled
  as rational numbers: `datetime + timedelta(days=d)` is exact addition of
  `d` days, so adding a rational number of days is a faithful rendering of
  the arithmetic the code performs.  The ISO-8601 text round trip used by
  the persistence layers is verified separately on a structured `DateTime`
  type (see the `Iso` section below).
* A Python dict is modelled as an association list in insertion order with
  pairwise distinct keys; `TRAVAUX[zone]` on a missing key raises
  `KeyError`, modelled by an `Option` result where `none` means an
  uncaught exception escaped the operation.
* A mutating Python function that returns a bool becomes a Lean function
  from the store to `Bool × Store` (or `Option (Bool × Store)` when it can
  raise), threading the state explicitly.
* SQLite autoincrement ids are modelled by explicit fresh-id counters; a
  transaction rollback restores the store that was current when the
  transaction began.
-/

/-- Task record as stored by either backend, polymorphic in the type used
for the two optional scheduling instants (`ℚ` for in-memory dates,
`DateTime` for the structured form, `String` for serialized ISO text). -/
structure TaskG (δ : Type) where
  titre : String
  statut : String
  priorite : String
  duree_estimee : ℚ
  date_debut : Option δ
  date_fin : Option δ
deriving DecidableEq, Repr

/-- In-memory task of the file backend, dates as rational day counts. -/
abbrev Tache := TaskG ℚ

/-- File-backend store: the `TRAVAUX` dict, zone name to list of tasks,
in insertion order. -/
abbrev FStore := List (String × List Tache)

/-- Value of a key in an association list (Python `d[k]` lookup). -/
def lookupZone {δ : Type} (s : List (String × List (TaskG δ))) (z : String) :
    Option (List (TaskG δ)) :=
  (s.find? (fun p => p.1 == z)).map (·.2)

/-- Assignment `d[k] = v` on an association list whose key is present. -/
def setZone {δ : Type} (s : List (String × List (TaskG δ))) (z : String)
    (ts : List (TaskG δ)) : List (String × List (TaskG δ)) :=
  s.map (fun p => if p.1 == z then (p.1, ts) else p)

/-- Python loop `for x in l: if p x: mutate x; return True` — applies `f`
to the first element satisfying `p`; `none` when no element matches. -/
def updateFirst {α : Type} (p : α → Bool) (f : α → α) : List α → Option (List α)
  | [] => none
  | x :: xs => if p x then some (f x :: xs) else (updateFirst p f xs).map (fun ys => x :: ys)

/-- Python loop `for i, x in enumerate(l): if p x: l.pop(i); return True`:
removes the first element satisfying `p`; `none` when no element matches. -/
def removeFirst {α : Type} (p : α → Bool) : List α → Option (List α)
  | [] => none
  | x :: xs => if p x then some xs else (removeFirst p xs).map (fun ys => x :: ys)

namespace Data

/-- Empty default structure `EMPTY_TRAVAUX` of `data.py`: the four default
zones, no tasks. -/
def EMPTY_TRAVAUX : FStore :=
  [("Palier", []), ("Cuisine/Séjour", []), ("Escalier", []), ("Cuisine", [])]

/-- Transcription of `data.update_task_status`: iterates over
`TRAVAUX[zone]` (raising `KeyError`, i.e. `none`, when the zone is not a
key), sets `statut` on the first task whose `titre` matches and returns
`True`, else returns `False`. -/
def update_task_status (s : FStore) (zone task_title new_status : String) :
    Option (Bool × FStore) :=
  match lookupZone s zone with
  | none => none
  | some ts =>
    match updateFirst (fun t => t.titre == task_title)
        (fun t => { t with statut := new_status }) ts with
    | none => some (false, s)
    | some ts' => some (true, setZone s zone ts')

/-- Transcription of `data.schedule_task`: on the first task of
`TRAVAUX[zone]` (KeyError on a missing zone) whose `titre` matches, sets
`date_debut` to the start, takes the custom duration when given (persisting
it into `duree_estimee`) and the stored `duree_estimee` otherwise, and sets
`date_fin = start + duration` days. -/
def schedule_task (s : FStore) (zone task_title : String) (start_date : ℚ)
    (custom_duration : Option ℚ) : Option (Bool × FStore) :=
  match lookupZone s zone with
  | none => none
  | some ts =>
    match updateFirst (fun t => t.titre == task_title)
        (fun t =>
          let duration := custom_duration.getD t.duree_estimee
          { t with duree_estimee := duration,
                   date_debut := some start_date,
                   date_fin := some (start_date + duration) }) ts with
    | none => some (false, s)
    | some ts' => some (true, setZone s zone ts')

/-- Transcription of `data.unschedule_task`: deletes both date keys from
the first task of `TRAVAUX[zone]` (KeyError on a missing zone) whose
`titre` matches. -/
def unschedule_task (s : FStore) (zone task_title : String) :
    Option (Bool × FStore) :=
  match lookupZone s zone with
  | none => none
  | some ts =>
    match updateFirst (fun t => t.titre == task_title)
        (fun t => { t with date_debut := none, date_fin := none }) ts with
    | none => some (false, s)
    | some ts' => some (true, setZone s zone ts')

/-- Transcription of `data.add_task`: returns `False` when the zone is not
a key of `TRAVAUX` or a task with the same title already exists in the
zone; otherwise appends the new task (no scheduled dates) and returns
`True`. -/
def add_task (s : FStore) (zone titre priorite : String) (duree_estimee : ℚ)
    (statut : String) : Bool × FStore :=
  match lookupZone s zone with
  | none => (false, s)
  | some ts =>
    if ts.any (fun t => t.titre == titre) then (false, s)
    else (true, setZone s zone (ts ++ [⟨titre, statut, priorite, duree_estimee, none, none⟩]))

/-- Transcription of `data.delete_task`: returns `False` when the zone is
not a key; otherwise removes the first task whose `titre` matches and
returns `True`, or `False` when none matches. -/
def delete_task (s : FStore) (zone task_title : String) : Bool × FStore :=
  match lookupZone s zone with
  | none => (false, s)
  | some ts =>
    match removeFirst (fun t => t.titre == task_title) ts with
    | none => (false, s)
    | some ts' => (true, setZone s zone ts')

/-- Value-level reading of `data.reset_to_empty`: replaces the store by a
copy of `EMPTY_TRAVAUX` and returns `True`.  Caveat: the source performs
`EMPTY_TRAVAUX.copy()`, a SHALLOW dict copy, so the zone lists of the new
`TRAVAUX` are the very list objects held by the module constant
`EMPTY_TRAVAUX`; this definition renders the intended deep copy.  The
object-identity behaviour of the shallow copy is modelled separately by
`PyState`, `py_reset_to_empty` and `py_add_task` below. -/
def reset_to_empty (_s : FStore) : Bool × FStore := (true, EMPTY_TRAVAUX)

/-- Transcription of `data.get_all_tasks`: every task paired with its
zone, in store order. -/
def get_all_tasks (s : FStore) : List (String × Tache) :=
  s.flatMap (fun p => p.2.map (fun t => (p.1, t)))

/-- Transcription of `data.get_scheduled_tasks`: tasks having both a start
and an end date, paired with their zone. -/
def get_scheduled_tasks (s : FStore) : List (String × Tache) :=
  s.flatMap (fun p =>
    (p.2.filter (fun t => t.date_debut.isSome && t.date_fin.isSome)).map (fun t => (p.1, t)))

/-- Transcription of `data.get_tasks_by_zone`: the zone's task list, empty
when the zone is not a key. -/
def get_tasks_by_zone (s : FStore) (zone : String) : List Tache :=
  (lookupZone s zone).getD []

/-- Transcription of `data.get_zones`: the list of zone names in store
order. -/
def get_zones (s : FStore) : List String := s.map (·.1)

end Data

/-- Row of the relational `taches` table. -/
structure TRow where
  id : Nat
  zone_id : Nat
  titre : String
  statut : String
  priorite : String
  duree_estimee : ℚ
  date_debut : Option ℚ
  date_fin : Option ℚ
deriving DecidableEq, Repr

/-- Relational store: the `zones` table (id, unique nom) and the `taches`
table, both in insertion order, plus the autoincrement id counters. -/
structure RStore where
  zones : List (Nat × String)
  taches : List TRow
  nextZoneId : Nat
  nextTacheId : Nat
deriving DecidableEq, Repr

namespace Db

/-- Scalar subquery `SELECT id FROM zones WHERE nom = ?` (the `nom` column
is UNIQUE, so the first match is the match; `none` is SQL NULL). -/
def zoneIdOf (s : RStore) (nom : String) : Option Nat :=
  (s.zones.find? (fun p => p.2 == nom)).map (·.1)

/-- Name of the zone row with the given id, used for the JOIN on
`t.zone_id = z.id`. -/
def zoneNameOf (s : RStore) (i : Nat) : Option String :=
  (s.zones.find? (fun p => p.1 == i)).map (·.2)

/-- Row filter `WHERE titre = ? AND zone_id = (SELECT id FROM zones WHERE
nom = ?)`; when the subquery yields NULL no row matches. -/
def hits (s : RStore) (zone task_title : String) (r : TRow) : Bool :=
  r.titre == task_title && zoneIdOf s zone == some r.zone_id

/-- Database produced by `db.init_db` on a fresh file: the four default
zones with autoincrement ids 1..4, no tasks. -/
def init_store : RStore :=
  ⟨[(1, "Palier"), (2, "Cuisine/Séjour"), (3, "Escalier"), (4, "Cuisine")], [], 5, 1⟩

/-- Transcription of `db.update_task_status`: one UPDATE of `statut` on
every matching row; returns `rowcount > 0`. -/
def update_task_status (s : RStore) (zone task_title new_status : String) :
    Bool × RStore :=
  (decide (0 < (s.taches.filter (hits s zone task_title)).length),
   { s with taches := s.taches.map (fun r =>
       if hits s zone task_title r then { r with statut := new_status } else r) })

/-- UPDATE of `db.schedule_task` once the duration is known: sets
`date_debut`, `date_fin = start + duration` and `duree_estimee` on every
matching row; returns `rowcount > 0`. -/
def scheduleWith (s : RStore) (zone task_title : String) (start_date d : ℚ) :
    Bool × RStore :=
  (decide (0 < (s.taches.filter (hits s zone task_title)).length),
   { s with taches := s.taches.map (fun r =>
       if hits s zone task_title r then
         { r with date_debut := some start_date,
                  date_fin := some (start_date + d),
                  duree_estimee := d }
       else r) })

/-- Transcription of `db.schedule_task`: when no custom duration is given
it first SELECTs the stored `duree_estimee` of the matching row, returning
`False` when none is found; then performs the UPDATE of `scheduleWith`. -/
def schedule_task (s : RStore) (zone task_title : String) (start_date : ℚ)
    (custom_duration : Option ℚ) : Bool × RStore :=
  match custom_duration with
  | some d => scheduleWith s zone task_title start_date d
  | none =>
    match s.taches.find? (hits s zone task_title) with
    | none => (false, s)
    | some r => scheduleWith s zone task_title start_date r.duree_estimee

/-- Transcription of `db.unschedule_task`: one UPDATE setting both date
columns to NULL on every matching row; returns `rowcount > 0`. -/
def unschedule_task (s : RStore) (zone task_title : String) : Bool × RStore :=
  (decide (0 < (s.taches.filter (hits s zone task_title)).length),
   { s with taches := s.taches.map (fun r =>
       if hits s zone task_title r then { r with date_debut := none, date_fin := none }
       else r) })

/-- Transcription of `db.add_task`: looks up the zone id, inserting a new
zone row when the name is absent; then inserts the task row.  A UNIQUE
(zone_id, titre) violation raises IntegrityError, and the rollback
restores the store from before the transaction (including the zone row
inserted on the fly). -/
def add_task (s : RStore) (zone titre priorite : String) (duree_estimee : ℚ)
    (statut : String) : Bool × RStore :=
  let zs : Nat × RStore :=
    match zoneIdOf s zone with
    | some i => (i, s)
    | none => (s.nextZoneId,
        { s with zones := s.zones ++ [(s.nextZoneId, zone)],
                 nextZoneId := s.nextZoneId + 1 })
  if zs.2.taches.any (fun r => r.zone_id == zs.1 && r.titre == titre) then
    (false, s)
  else
    (true, { zs.2 with
             taches := zs.2.taches ++
               [⟨zs.2.nextTacheId, zs.1, titre, statut, priorite, duree_estimee, none, none⟩],
             nextTacheId := zs.2.nextTacheId + 1 })

/-- Transcription of `db.delete_task`: one DELETE of every matching row;
returns `rowcount > 0`. -/
def delete_task (s : RStore) (zone task_title : String) : Bool × RStore :=
  (decide (0 < (s.taches.filter (hits s zone task_title)).length),
   { s with taches := s.taches.filter (fun r => !(hits s zone task_title r)) })

/-- Transcription of `db.reset_to_empty`: `DELETE FROM taches` only, the
`zones` table is untouched; returns `True`. -/
def reset_to_empty (s : RStore) : Bool × RStore :=
  (true, { s with taches := [] })

/-- Result row of the queries that JOIN `taches` with `zones`. -/
structure JoinedRow where
  zone : String
  titre : String
  statut : String
  priorite : String
  duree_estimee : ℚ
  date_debut : Option ℚ
  date_fin : Option ℚ
deriving DecidableEq, Repr

/-- JOIN of one task row with its zone row; the row is dropped when no
zone has its `zone_id`. -/
def joinRow (s : RStore) (r : TRow) : Option JoinedRow :=
  (zoneNameOf s r.zone_id).map (fun z =>
    ⟨z, r.titre, r.statut, r.priorite, r.duree_estimee, r.date_debut, r.date_fin⟩)

/-- Transcription of `db.get_all_tasks`: every task row joined with its
zone (row order of the `taches` table). -/
def get_all_tasks (s : RStore) : List JoinedRow :=
  s.taches.filterMap (joinRow s)

/-- Transcription of `db.get_scheduled_tasks`: joined rows where both date
columns are non NULL. -/
def get_scheduled_tasks (s : RStore) : List JoinedRow :=
  (s.taches.filter (fun r => r.date_debut.isSome && r.date_fin.isSome)).filterMap (joinRow s)

/-- Transcription of `db.get_tasks_by_zone`: task rows whose zone row is
named `zone`. -/
def get_tasks_by_zone (s : RStore) (zone : String) : List TRow :=
  s.taches.filter (fun r => zoneNameOf s r.zone_id == some zone)

/-- Transcription of `db.get_zones` (`SELECT nom FROM zones ORDER BY id`;
the model keeps the table in insertion order, which coincides with id
order since ids are assigned increasingly). -/
def get_zones (s : RStore) : List String := s.zones.map (·.2)

/-- Migration step for one task: relational `add_task` with the task's
fields (result ignored, as in the source), then, when the task carries
both dates, relational `schedule_task` with its stored start date and its
stored duration as the custom duration. -/
def migrateTache (zone : String) (tk : Tache) (s : RStore) : RStore :=
  let s1 := (add_task s zone tk.titre tk.priorite tk.duree_estimee tk.statut).2
  match tk.date_debut, tk.date_fin with
  | some st, some _ => (schedule_task s1 zone tk.titre st (some tk.duree_estimee)).2
  | _, _ => s1

/-- Migration of the task list of one zone, in order. -/
def migrateZone (zone : String) : List Tache → RStore → RStore
  | [], s => s
  | tk :: ts, s => migrateZone zone ts (migrateTache zone tk s)

/-- Migration of all zones of the parsed JSON document, in order. -/
def migrateZones : FStore → RStore → RStore
  | [], s => s
  | (z, ts) :: rest, s => migrateZones rest (migrateZone z ts s)

/-- Transcription of `db.migrate_from_json`: `none` models a JSON file
that fails to load (the broad `except` returns `False` with the database
untouched); otherwise the database tasks are cleared (`reset_to_empty`,
zones kept) and every task of the document is transferred in order. -/
def migrate_from_json (json : Option FStore) (s : RStore) : Bool × RStore :=
  match json with
  | none => (false, s)
  | some data => (true, migrateZones data (reset_to_empty s).2)

end Db


/-- Scheduling consistency of one task: the two dates are both present or
both absent, and when present the end is the start plus the estimated
duration in days. -/
def TacheOk (tk : Tache) : Prop :=
  (tk.date_debut.isSome ↔ tk.date_fin.isSome) ∧
  ∀ a ∈ tk.date_debut, ∀ b ∈ tk.date_fin, b = a + tk.duree_estimee

/-- Invariant of file-backend stores: zone keys are pairwise distinct (a
Python dict), titles are unique within each zone, and every task is
scheduling-consistent. -/
def FInv (s : FStore) : Prop :=
  (s.map (·.1)).Nodup ∧
  ∀ p ∈ s, (p.2.map (·.titre)).Nodup ∧ ∀ tk ∈ p.2, TacheOk tk

/-- One mutation of the file backend through its contract operations. -/
inductive FStep : FStore → FStore → Prop where
  | update {s s' : FStore} (z t ns : String) (b : Bool) :
      Data.update_task_status s z t ns = some (b, s') → FStep s s'
  | sched {s s' : FStore} (z t : String) (st : ℚ) (d? : Option ℚ) (b : Bool) :
      Data.schedule_task s z t st d? = some (b, s') → FStep s s'
  | unsched {s s' : FStore} (z t : String) (b : Bool) :
      Data.unschedule_task s z t = some (b, s') → FStep s s'
  | add {s s' : FStore} (z t p : String) (d : ℚ) (st : String) (b : Bool) :
      Data.add_task s z t p d st = (b, s') → FStep s s'
  | del {s s' : FStore} (z t : String) (b : Bool) :
      Data.delete_task s z t = (b, s') → FStep s s'
  | reset {s s' : FStore} (b : Bool) :
      Data.reset_to_empty s = (b, s') → FStep s s'

/-- File-backend store states reachable from the empty default structure
by contract operations. -/
inductive FReach : FStore → Prop where
  | init : FReach Data.EMPTY_TRAVAUX
  | step {s s' : FStore} : FReach s → FStep s s' → FReach s'

/-- Invariant of relational stores: zone ids and zone names are unique
(PRIMARY KEY and UNIQUE nom), ids are below the autoincrement counter,
the (zone_id, titre) pairs are unique (the UNIQUE constraint), every row
references an existing zone, and every row is scheduling-consistent. -/
def RInv (rs : RStore) : Prop :=
  (rs.zones.map (·.1)).Nodup ∧
  (rs.zones.map (·.2)).Nodup ∧
  (∀ q ∈ rs.zones, q.1 < rs.nextZoneId) ∧
  (rs.taches.map (fun r => (r.zone_id, r.titre))).Nodup ∧
  (∀ r ∈ rs.taches, ∃ q ∈ rs.zones, q.1 = r.zone_id) ∧
  ∀ r ∈ rs.taches, (r.date_debut.isSome ↔ r.date_fin.isSome) ∧
    ∀ a ∈ r.date_debut, ∀ b ∈ r.date_fin, b = a + r.duree_estimee

/-- One mutation of the relational backend through its contract
operations. -/
inductive RStep : RStore → RStore → Prop where
  | update {s s' : RStore} (z t ns : String) (b : Bool) :
      Db.update_task_status s z t ns = (b, s') → RStep s s'
  | sched {s s' : RStore} (z t : String) (st : ℚ) (d? : Option ℚ) (b : Bool) :
      Db.schedule_task s z t st d? = (b, s') → RStep s s'
  | unsched {s s' : RStore} (z t : String) (b : Bool) :
      Db.unschedule_task s z t = (b, s') → RStep s s'
  | add {s s' : RStore} (z t p : String) (d : ℚ) (st : String) (b : Bool) :
      Db.add_task s z t p d st = (b, s') → RStep s s'
  | del {s s' : RStore} (z t : String) (b : Bool) :
      Db.delete_task s z t = (b, s') → RStep s s'
  | reset {s s' : RStore} (b : Bool) :
      Db.reset_to_empty s = (b, s') → RStep s s'

/-- Relational store states reachable from a freshly initialised database
by contract operations. -/
inductive RReach : RStore → Prop where
  | init : RReach Db.init_store
  | step {s s' : RStore} : RReach s → RStep s s' → RReach s'

/-- Field correspondence used for the migration claim: a relational row
carries the same data as a file-backend task of a given zone. -/
def RowMatches (rs : RStore) (q : String × Tache) (r : TRow) : Prop :=
  Db.zoneNameOf rs r.zone_id = some q.1 ∧ r.titre = q.2.titre ∧
  r.statut = q.2.statut ∧ r.priorite = q.2.priorite ∧
  r.duree_estimee = q.2.duree_estimee ∧
  r.date_debut = q.2.date_debut ∧ r.date_fin = q.2.date_fin

/-- Intermediate invariant of the migration loop: the zone table is
well-formed and the task rows inserted so far correspond, in order, to the
file-backend tasks already processed. -/
def MigInv (done : List (String × Tache)) (rs : RStore) : Prop :=
  (rs.zones.map (·.1)).Nodup ∧
  (rs.zones.map (·.2)).Nodup ∧
  (∀ q ∈ rs.zones, q.1 < rs.nextZoneId) ∧
  List.Forall₂ (RowMatches rs) done rs.taches

/-- Identity of a task together with its non-date payload, for comparing
migrated rows with their originals. -/
def fieldsOfT (z : String) (tk : Tache) : String × String × String × String × ℚ :=
  (z, tk.titre, tk.statut, tk.priorite, tk.duree_estimee)

/-- Non-date payload of a joined relational row. -/
def fieldsOfJ (q : Db.JoinedRow) : String × String × String × String × ℚ :=
  (q.zone, q.titre, q.statut, q.priorite, q.duree_estimee)

/-- Identity of a task together with its two dates. -/
def schedOfT (z : String) (tk : Tache) : String × String × Option ℚ × Option ℚ :=
  (z, tk.titre, tk.date_debut, tk.date_fin)

/-- Dates payload of a joined relational row. -/
def schedOfJ (q : Db.JoinedRow) : String × String × Option ℚ × Option ℚ :=
  (q.zone, q.titre, q.date_debut, q.date_fin)

/-- Calendar instant with the components that Python `datetime` carries
(time zone naive, as in this application). -/
structure DateTime where
  year : Nat
  month : Nat
  day : Nat
  hour : Nat
  minute : Nat
  second : Nat
  microsecond : Nat
deriving DecidableEq, Repr

/-- Decimal digit character of `n % 10`. -/
def digitChar (n : Nat) : Char := Char.ofNat (48 + n % 10)

/-- Numeric value of a decimal digit character. -/
def digitVal (c : Char) : Nat := c.toNat - 48

/-- Two-digit zero-padded decimal form (`%02d`). -/
def pad2 (n : Nat) : List Char := [digitChar (n / 10), digitChar n]

/-- Four-digit zero-padded decimal form (`%04d`, total on the year range
of `datetime`, which is at most 9999). -/
def pad4 (n : Nat) : List Char :=
  [digitChar (n / 1000), digitChar (n / 100), digitChar (n / 10), digitChar n]

/-- Six-digit zero-padded decimal form (`%06d`). -/
def pad6 (n : Nat) : List Char :=
  [digitChar (n / 100000), digitChar (n / 10000), digitChar (n / 1000),
   digitChar (n / 100), digitChar (n / 10), digitChar n]

/-- Python `datetime.isoformat()`: `YYYY-MM-DDTHH:MM:SS`, with
`.ffffff` appended exactly when the microsecond field is nonzero. -/
def isoformat (d : DateTime) : String :=
  ⟨pad4 d.year ++ '-' :: (pad2 d.month ++ '-' :: (pad2 d.day ++ 'T' ::
    (pad2 d.hour ++ ':' :: (pad2 d.minute ++ ':' :: (pad2 d.second ++
      (if d.microsecond = 0 then [] else '.' :: pad6 d.microsecond))))))⟩

/-- Python `datetime.fromisoformat` restricted to the two shapes that
`isoformat` emits (the library accepts more ISO-8601 forms; the
persistence round trip only ever parses strings `isoformat` produced).
Raises (`none`) on any other input. -/
def fromisoformat (s : String) : Option DateTime :=
  match s.data with
  | y1 :: y2 :: y3 :: y4 :: c1 :: m1 :: m2 :: c2 :: d1 :: d2 :: c3 ::
    h1 :: h2 :: c4 :: n1 :: n2 :: c5 :: s1 :: s2 :: rest =>
    if c1 = '-' ∧ c2 = '-' ∧ c3 = 'T' ∧ c4 = ':' ∧ c5 = ':' ∧
       y1.isDigit ∧ y2.isDigit ∧ y3.isDigit ∧ y4.isDigit ∧
       m1.isDigit ∧ m2.isDigit ∧ d1.isDigit ∧ d2.isDigit ∧
       h1.isDigit ∧ h2.isDigit ∧ n1.isDigit ∧ n2.isDigit ∧
       s1.isDigit ∧ s2.isDigit then
      match rest with
      | [] =>
        some ⟨digitVal y1 * 1000 + digitVal y2 * 100 + digitVal y3 * 10 + digitVal y4,
              digitVal m1 * 10 + digitVal m2, digitVal d1 * 10 + digitVal d2,
              digitVal h1 * 10 + digitVal h2, digitVal n1 * 10 + digitVal n2,
              digitVal s1 * 10 + digitVal s2, 0⟩
      | c6 :: u1 :: u2 :: u3 :: u4 :: u5 :: u6 :: [] =>
        if c6 = '.' ∧ u1.isDigit ∧ u2.isDigit ∧ u3.isDigit ∧ u4.isDigit ∧
           u5.isDigit ∧ u6.isDigit then
          some ⟨digitVal y1 * 1000 + digitVal y2 * 100 + digitVal y3 * 10 + digitVal y4,
                digitVal m1 * 10 + digitVal m2, digitVal d1 * 10 + digitVal d2,
                digitVal h1 * 10 + digitVal h2, digitVal n1 * 10 + digitVal n2,
                digitVal s1 * 10 + digitVal s2,
                digitVal u1 * 100000 + digitVal u2 * 10000 + digitVal u3 * 1000 +
                  digitVal u4 * 100 + digitVal u5 * 10 + digitVal u6⟩
        else none
      | _ => none
    else none
  | _ => none

/-- Domain of the Python `datetime` components. -/
def ValidDT (d : DateTime) : Prop :=
  1 ≤ d.year ∧ d.year ≤ 9999 ∧ 1 ≤ d.month ∧ d.month ≤ 12 ∧
  1 ≤ d.day ∧ d.day ≤ 31 ∧ d.hour ≤ 23 ∧ d.minute ≤ 59 ∧
  d.second ≤ 59 ∧ d.microsecond ≤ 999999

/-- In-memory task of the file backend with structured dates, as held in
`TRAVAUX` after `load_data`. -/
abbrev DTask := TaskG DateTime

/-- Serialized task as written to `tasks_data.json`: dates are ISO-8601
strings. -/
abbrev JTask := TaskG String

/-- In-memory file store with structured dates. -/
abbrev DStore := List (String × List DTask)

/-- Serialized file store (the JSON document). -/
abbrev JStore := List (String × List JTask)

/-- Serialization of one task by `data.save_data`: datetime fields are
converted with `isoformat`, everything else copied. -/
def saveTask (t : DTask) : JTask :=
  ⟨t.titre, t.statut, t.priorite, t.duree_estimee,
   t.date_debut.map isoformat, t.date_fin.map isoformat⟩

/-- Serialization loop of `data.save_data` over the whole store. -/
def save_data (s : DStore) : JStore :=
  s.map (fun p => (p.1, p.2.map saveTask))

/-- Parse of one optional date field at load time: an absent key stays
absent; a present string goes through `fromisoformat`, whose failure
raises out of `load_data`. -/
def parseDate : Option String → Option (Option DateTime)
  | none => some none
  | some str => (fromisoformat str).map some

/-- Parse of one serialized task by `data.load_data`. -/
def loadTask (t : JTask) : Option DTask :=
  match parseDate t.date_debut, parseDate t.date_fin with
  | some a, some b => some ⟨t.titre, t.statut, t.priorite, t.duree_estimee, a, b⟩
  | _, _ => none

/-- Parse of a task list; `none` when any task fails to parse. -/
def loadTasks : List JTask → Option (List DTask)
  | [] => some []
  | t :: ts =>
    match loadTask t, loadTasks ts with
    | some t', some ts' => some (t' :: ts')
    | _, _ => none

/-- Date-parsing loop of `data.load_data` over the whole JSON document
(`none` models the exception path, which resets the store to empty). -/
def load_data : JStore → Option DStore
  | [] => some []
  | (z, ts) :: rest =>
    match loadTasks ts, load_data rest with
    | some ts', some rest' => some ((z, ts') :: rest')
    | _, _ => none

/-- Validity of every date stored in a structured file store. -/
def ValidStore (s : DStore) : Prop :=
  ∀ p ∈ s, ∀ tk ∈ p.2, (∀ a ∈ tk.date_debut, ValidDT a) ∧ ∀ b ∈ tk.date_fin, ValidDT b

/-- Outcome of the `db.migrate_from_json(DATA_FILE)` call as observed by
`migration.py`: a returned boolean, or an exception that escaped (for
example an import failure). -/
inductive MigResult where
  | ok : Bool → MigResult
  | exc : MigResult
deriving DecidableEq, Repr

/-- Python substring test `needle in hay`. -/
def containsSub (needle hay : String) : Bool :=
  decide (needle.data <:+: hay.data)

/-- Transcription of `config_manager.use_sqlite`: `True` exactly when the
configuration file exists and contains the literal `use_sqlite=True`. -/
def use_sqlite (cfg : Option String) : Bool :=
  match cfg with
  | some content => containsSub "use_sqlite=True" content
  | none => false

/-- Tail of `migration.py` once the early exits are passed: the flag file
is written only when the migration call returned `True`. -/
def migration_script_run (json_exists : Bool) (result : MigResult)
    (cfg : Option String) : Option String :=
  if json_exists then
    match result with
    | .ok true => some "use_sqlite=True\n"
    | _ => cfg
  else cfg

/-- Transcription of `migration.py`, from configuration-file contents
(`none` when the file does not exist), existence of `tasks_data.json`,
and the outcome of the migration call, to the final configuration-file
contents. -/
def migration_script (cfg : Option String) (json_exists : Bool)
    (result : MigResult) : Option String :=
  match cfg with
  | some content =>
    if containsSub "use_sqlite=True" content then some content
    else migration_script_run json_exists result (some content)
  | none => migration_script_run json_exists result none


/-- Example store: the default file store after adding one task. -/
def exS1 : FStore := (Data.add_task Data.EMPTY_TRAVAUX "Cuisine" "T" "Moyenne" 1 "À faire").2

/-- Example store: `exS1` after scheduling that task at day 0. -/
def exS2 : FStore := ((Data.schedule_task exS1 "Cuisine" "T" 0 none).getD (false, [])).2

/-- Example store: the default database after adding one task. -/
def exR1 : RStore := (Db.add_task Db.init_store "Cuisine" "T" "Moyenne" 1 "À faire").2

/-- Example store: `exR1` after scheduling that task at day 0. -/
def exR2 : RStore := (Db.schedule_task exR1 "Cuisine" "T" 0 none).2

/-- Example file store for the migration claim: one empty zone, two
tasks in "Cuisine" (one scheduled), one scheduled task in "Garage". -/
def exJson : FStore :=
  [("Palier", []),
   ("Cuisine", [⟨"A", "À faire", "Moyenne", 2, none, none⟩,
                ⟨"B", "En cours", "Élevée", 1, some 5, some 6⟩]),
   ("Garage", [⟨"C", "Terminé", "Basse", 3, some 0, some 3⟩])]

/-- Example structured-date file store for the serialization round trip:
one unscheduled task and one scheduled task whose end instant carries
microseconds. -/
def exDStore : DStore :=
  [("Cuisine", [⟨"A", "À faire", "Moyenne", 2, none, none⟩,
                ⟨"B", "En cours", "Élevée", 3,
                 some ⟨2024, 3, 1, 10, 30, 0, 0⟩,
                 some ⟨2024, 3, 4, 10, 30, 0, 123456⟩⟩])]

/-- Object-level state of the `data.py` module: the current contents of
the list objects held by the module constant `EMPTY_TRAVAUX`, the current
contents of the global `TRAVAUX` dict, and the set of `TRAVAUX` keys whose
list is the SAME Python object as the one in `EMPTY_TRAVAUX` (created by
the shallow `EMPTY_TRAVAUX.copy()` at data.py line 231 and in the
`load_data` fallback). -/
structure PyState where
  empty4 : List (String × List Tache)
  travaux : List (String × List Tache)
  aliased : List String
deriving DecidableEq, Repr

/-- Module state right after a fresh start where `load_data` read an
empty four-zone JSON file: `TRAVAUX` holds freshly parsed (unaliased)
lists and `EMPTY_TRAVAUX` is still pristine. -/
def pyInit : PyState := ⟨Data.EMPTY_TRAVAUX, Data.EMPTY_TRAVAUX, []⟩

/-- Object-level transcription of `data.reset_to_empty`:
`TRAVAUX = EMPTY_TRAVAUX.copy()` builds a new dict whose values are the
list objects of `EMPTY_TRAVAUX` itself (shallow copy), so afterwards
every key of `EMPTY_TRAVAUX` is aliased; returns `True`. -/
def py_reset_to_empty (st : PyState) : Bool × PyState :=
  (true, { st with travaux := st.empty4, aliased := st.empty4.map (·.1) })

/-- Object-level transcription of `data.add_task`: the same checks as the
value-level model, but the in-place `TRAVAUX[zone].append(...)` writes
through to `EMPTY_TRAVAUX` when the zone list is aliased. -/
def py_add_task (st : PyState) (zone titre priorite : String) (duree_estimee : ℚ)
    (statut : String) : Bool × PyState :=
  match lookupZone st.travaux zone with
  | none => (false, st)
  | some ts =>
    if ts.any (fun t => t.titre == titre) then (false, st)
    else
      let ts' := ts ++ [⟨titre, statut, priorite, duree_estimee, none, none⟩]
      (true, { st with
        travaux := setZone st.travaux zone ts',
        empty4 := if st.aliased.contains zone then setZone st.empty4 zone ts'
                  else st.empty4 })

section ListLemmas

variable {α : Type} {p : α → Bool} {f : α → α}

theorem updateFirst_eq_none {l : List α} :
    updateFirst p f l = none ↔ ∀ x ∈ l, p x = false := by
  induction l with
  | nil => simp [updateFirst]
  | cons x xs ih => by_cases hx : p x <;> simp [updateFirst, hx, ih]

theorem updateFirst_eq_some {l l' : List α} (h : updateFirst p f l = some l') :
    ∃ l₁ x l₂, l = l₁ ++ x :: l₂ ∧ (∀ y ∈ l₁, p y = false) ∧ p x = true ∧
      l' = l₁ ++ f x :: l₂ := by
  induction l generalizing l' with
  | nil => simp [updateFirst] at h
  | cons x xs ih =>
    by_cases hx : p x
    · simp only [updateFirst, hx, if_pos, Option.some.injEq] at h
      exact ⟨[], x, xs, rfl, by simp, hx, h.symm⟩
    · simp only [updateFirst, hx, if_neg, Bool.false_eq_true, not_false_iff,
        Option.map_eq_some'] at h
      obtain ⟨ys, hys, rfl⟩ := h
      obtain ⟨l₁, a, l₂, rfl, h₁, ha, rfl⟩ := ih hys
      refine ⟨x :: l₁, a, l₂, rfl, ?_, ha, rfl⟩
      intro y hy
      rcases List.mem_cons.mp hy with rfl | hy
      · simpa using hx
      · exact h₁ y hy

theorem updateFirst_isSome {l : List α} (h : (l.find? p).isSome) :
    (updateFirst p f l).isSome := by
  rcases he : updateFirst p f l with _ | l'
  · rw [updateFirst_eq_none] at he
    rcases Option.isSome_iff_exists.mp h with ⟨a, ha⟩
    have := List.find?_some ha
    rw [he a (List.mem_of_find?_eq_some ha)] at this
    cases this
  · simp

theorem updateFirst_find? (hf : ∀ a, p a = true → p (f a) = true) {l l' : List α}
    (h : updateFirst p f l = some l') :
    l'.find? p = (l.find? p).map f := by
  induction l generalizing l' with
  | nil => simp [updateFirst] at h
  | cons x xs ih =>
    by_cases hx : p x
    · simp only [updateFirst, hx, if_pos, Option.some.injEq] at h
      subst h
      simp [List.find?, hx, hf x hx]
    · simp only [updateFirst, hx, if_neg, Bool.false_eq_true, not_false_iff,
        Option.map_eq_some'] at h
      obtain ⟨ys, hys, rfl⟩ := h
      simp [List.find?, hx, ih hys]

theorem removeFirst_eq_none {l : List α} :
    removeFirst p l = none ↔ ∀ x ∈ l, p x = false := by
  induction l with
  | nil => simp [removeFirst]
  | cons x xs ih => by_cases hx : p x <;> simp [removeFirst, hx, ih]

theorem removeFirst_eq_some {l l' : List α} (h : removeFirst p l = some l') :
    ∃ l₁ x l₂, l = l₁ ++ x :: l₂ ∧ (∀ y ∈ l₁, p y = false) ∧ p x = true ∧
      l' = l₁ ++ l₂ := by
  induction l generalizing l' with
  | nil => simp [removeFirst] at h
  | cons x xs ih =>
    by_cases hx : p x
    · simp only [removeFirst, hx, if_pos, Option.some.injEq] at h
      exact ⟨[], x, xs, rfl, by simp, hx, h.symm⟩
    · simp only [removeFirst, hx, if_neg, Bool.false_eq_true, not_false_iff,
        Option.map_eq_some'] at h
      obtain ⟨ys, hys, rfl⟩ := h
      obtain ⟨l₁, a, l₂, rfl, h₁, ha, rfl⟩ := ih hys
      refine ⟨x :: l₁, a, l₂, rfl, ?_, ha, rfl⟩
      intro y hy
      rcases List.mem_cons.mp hy with rfl | hy
      · simpa using hx
      · exact h₁ y hy

end ListLemmas

section StoreLemmas

variable {δ : Type}

theorem setZone_key_comp (z z' : String) (ts : List (TaskG δ)) :
    (fun p : String × List (TaskG δ) => p.1 == z') ∘
      (fun p : String × List (TaskG δ) => if p.1 == z then (p.1, ts) else p) =
    (fun p : String × List (TaskG δ) => p.1 == z') := by
  funext p
  by_cases h : p.1 = z <;> simp [h]

theorem lookupZone_setZone_self (s : List (String × List (TaskG δ))) (z : String)
    (ts : List (TaskG δ)) (h : (lookupZone s z).isSome) :
    lookupZone (setZone s z ts) z = some ts := by
  unfold lookupZone setZone
  rw [List.find?_map, setZone_key_comp]
  unfold lookupZone at h
  rcases hq : s.find? (fun p => p.1 == z) with _ | q
  · rw [hq] at h
    simp at h
  · have hz : q.1 = z := by simpa using List.find?_some hq
    rw [hq]
    simp [Function.comp, hz]

theorem lookupZone_setZone_ne (s : List (String × List (TaskG δ))) {z z' : String}
    (ts : List (TaskG δ)) (h : z' ≠ z) :
    lookupZone (setZone s z ts) z' = lookupZone s z' := by
  unfold lookupZone setZone
  rw [List.find?_map, setZone_key_comp]
  rcases hq : s.find? (fun p => p.1 == z') with _ | q
  · rw [hq]
    simp
  · have hz' : q.1 = z' := by simpa using List.find?_some hq
    rw [hq]
    have hne : ¬(q.1 = z) := by
      rw [hz']
      exact h
    simp [Function.comp, hne]

theorem setZone_keys (s : List (String × List (TaskG δ))) (z : String)
    (ts : List (TaskG δ)) :
    (setZone s z ts).map (·.1) = s.map (·.1) := by
  unfold setZone
  rw [List.map_map]
  congr 1
  funext p
  by_cases h : p.1 = z <;> simp [h]

end StoreLemmas

/-- Claim C3, code bug: `data.reset_to_empty` copies `EMPTY_TRAVAUX` with
a SHALLOW `dict.copy()`, so the zone lists stay aliased with the module
constant; the claim's own sequence reset, then `add_task("Cuisine", "T")`,
then reset again ends with the added task still in the store (the in-place
append mutated `EMPTY_TRAVAUX` itself), where the claim requires zero
tasks.  Every call still returns `True`. -/
theorem claim_C3_reset_shallow_copy_bug :
    (py_reset_to_empty pyInit).1 = true ∧
    (py_add_task (py_reset_to_empty pyInit).2 "Cuisine" "T" "Moyenne" 1 "À faire").1 = true ∧
    (py_reset_to_empty
      (py_add_task (py_reset_to_empty pyInit).2 "Cuisine" "T" "Moyenne" 1 "À faire").2).1 =
      true ∧
    Data.get_all_tasks
      (py_reset_to_empty
        (py_add_task (py_reset_to_empty pyInit).2 "Cuisine" "T" "Moyenne" 1 "À faire").2).2.travaux =
      [("Cuisine", ⟨"T", "À faire", "Moyenne", 1, none, none⟩)] := by
  exact ⟨rfl, rfl, rfl, rfl⟩

/-- Claim C2, counterexample: in the file backend the three operations
that index `TRAVAUX[zone]` directly raise `KeyError` (modelled as `none`)
on a zone that is not a key of the store, instead of returning `False`;
here on the default store and the absent zone "Garage". -/
theorem claim_C2_counterexample :
    Data.update_task_status Data.EMPTY_TRAVAUX "Garage" "Peinture" "Fait" = none ∧
    Data.schedule_task Data.EMPTY_TRAVAUX "Garage" "Peinture" 0 none = none ∧
    Data.unschedule_task Data.EMPTY_TRAVAUX "Garage" "Peinture" = none := by
  exact ⟨rfl, rfl, rfl⟩

/-- Claim C2, amended: `add_task` and `delete_task` are total in the file
backend and return false on an unknown zone; `update_task_status`,
`schedule_task` and `unschedule_task` return a boolean whenever the zone
exists (false when the title is absent) but raise `KeyError` on an
unknown zone; the four relational operations are total on all inputs and
return false, leaving the database unchanged, when no row matches. -/
theorem claim_C2_amended_totality :
    (∀ (s : FStore) (z t p st : String) (d : ℚ),
        lookupZone s z = none → Data.add_task s z t p d st = (false, s)) ∧
    (∀ (s : FStore) (z t : String),
        lookupZone s z = none → Data.delete_task s z t = (false, s)) ∧
    (∀ (s : FStore) (z t ns : String) (ts : List Tache), lookupZone s z = some ts →
        ∃ r, Data.update_task_status s z t ns = some r) ∧
    (∀ (s : FStore) (z t : String) (start : ℚ) (d? : Option ℚ) (ts : List Tache),
        lookupZone s z = some ts → ∃ r, Data.schedule_task s z t start d? = some r) ∧
    (∀ (s : FStore) (z t : String) (ts : List Tache),
        lookupZone s z = some ts → ∃ r, Data.unschedule_task s z t = some r) ∧
    (∀ (s : FStore) (z t ns : String),
        lookupZone s z = none → Data.update_task_status s z t ns = none) ∧
    (∀ (s : FStore) (z t : String) (start : ℚ) (d? : Option ℚ),
        lookupZone s z = none → Data.schedule_task s z t start d? = none) ∧
    (∀ (s : FStore) (z t : String),
        lookupZone s z = none → Data.unschedule_task s z t = none) ∧
    (∀ (rs : RStore) (z t ns : String), (∀ r ∈ rs.taches, Db.hits rs z t r = false) →
        Db.update_task_status rs z t ns = (false, rs)) ∧
    (∀ (rs : RStore) (z t : String) (start : ℚ) (d? : Option ℚ),
        (∀ r ∈ rs.taches, Db.hits rs z t r = false) →
        Db.schedule_task rs z t start d? = (false, rs)) ∧
    (∀ (rs : RStore) (z t : String), (∀ r ∈ rs.taches, Db.hits rs z t r = false) →
        Db.unschedule_task rs z t = (false, rs)) ∧
    (∀ (rs : RStore) (z t : String), (∀ r ∈ rs.taches, Db.hits rs z t r = false) →
        Db.delete_task rs z t = (false, rs)) := by
  have hfilter : ∀ (rs : RStore) (z t : String),
      (∀ r ∈ rs.taches, Db.hits rs z t r = false) →
      rs.taches.filter (Db.hits rs z t) = [] := by
    intro rs z t h
    simp only [List.filter_eq_nil_iff]
    intro r hr
    simp [h r hr]
  have hmap : ∀ (p : TRow → Bool) (f : TRow → TRow) (l : List TRow),
      (∀ r ∈ l, p r = false) → l.map (fun r => if p r then f r else r) = l := by
    intro p f l h
    induction l with
    | nil => rfl
    | cons x xs ih =>
      have hx : p x = false := h x (by simp)
      have ihx := ih (fun r hr => h r (by simp [hr]))
      simp [hx, ihx]
  refine ⟨?_, ?_, ?_, ?_, ?_, ?_, ?_, ?_, ?_, ?_, ?_, ?_⟩
  · intro s z t p st d h
    simp [Data.add_task, h]
  · intro s z t h
    simp [Data.delete_task, h]
  · intro s z t ns ts h
    simp only [Data.update_task_status, h]
    rcases hu : updateFirst (fun x => x.titre == t)
        (fun x => { x with statut := ns }) ts with _ | ts' <;>
      simp only [hu] <;> exact ⟨_, rfl⟩
  · intro s z t start d? ts h
    simp only [Data.schedule_task, h]
    rcases hu : updateFirst (fun x => x.titre == t)
        (fun x =>
          let duration := d?.getD x.duree_estimee
          { x with duree_estimee := duration,
                   date_debut := some start,
                   date_fin := some (start + duration) }) ts with _ | ts' <;>
      simp only [hu] <;> exact ⟨_, rfl⟩
  · intro s z t ts h
    simp only [Data.unschedule_task, h]
    rcases hu : updateFirst (fun x => x.titre == t)
        (fun x => { x with date_debut := none, date_fin := none }) ts with _ | ts' <;>
      simp only [hu] <;> exact ⟨_, rfl⟩
  · intro s z t ns h
    simp [Data.update_task_status, h]
  · intro s z t start d? h
    simp [Data.schedule_task, h]
  · intro s z t h
    simp [Data.unschedule_task, h]
  · intro rs z t ns h
    unfold Db.update_task_status
    rw [hfilter rs z t h,
      hmap (Db.hits rs z t) (fun r => { r with statut := ns }) rs.taches h]
    rfl
  · intro rs z t start d? h
    rcases d? with _ | d
    · have hfind : rs.taches.find? (Db.hits rs z t) = none :=
        List.find?_eq_none.mpr (fun r hr => by simp [h r hr])
      simp [Db.schedule_task, hfind]
    · show Db.scheduleWith rs z t start d = (false, rs)
      unfold Db.scheduleWith
      rw [hfilter rs z t h,
        hmap (Db.hits rs z t)
          (fun r => { r with date_debut := some start,
                             date_fin := some (start + d),
                             duree_estimee := d }) rs.taches h]
      rfl
  · intro rs z t h
    unfold Db.unschedule_task
    rw [hfilter rs z t h,
      hmap (Db.hits rs z t) (fun r => { r with date_debut := none, date_fin := none })
        rs.taches h]
    rfl
  · intro rs z t h
    unfold Db.delete_task
    rw [hfilter rs z t h]
    have hkeep : rs.taches.filter (fun r => !(Db.hits rs z t r)) = rs.taches := by
      rw [List.filter_eq_self]
      intro r hr
      simp [h r hr]
    rw [hkeep]
    rfl

/-- Witness for claim C2 (amended): concrete instances of every clause,
on the default stores of the two backends. -/
theorem claim_C2_amended_witness :
    Data.add_task Data.EMPTY_TRAVAUX "Garage" "T" "Moyenne" 1 "À faire" =
      (false, Data.EMPTY_TRAVAUX) ∧
    Data.delete_task Data.EMPTY_TRAVAUX "Garage" "T" = (false, Data.EMPTY_TRAVAUX) ∧
    (∃ r, Data.update_task_status Data.EMPTY_TRAVAUX "Palier" "T" "Fait" = some r) ∧
    (∃ r, Data.schedule_task Data.EMPTY_TRAVAUX "Palier" "T" 0 none = some r) ∧
    (∃ r, Data.unschedule_task Data.EMPTY_TRAVAUX "Palier" "T" = some r) ∧
    Data.update_task_status Data.EMPTY_TRAVAUX "Garage" "T" "Fait" = none ∧
    Data.schedule_task Data.EMPTY_TRAVAUX "Garage" "T" 0 none = none ∧
    Data.unschedule_task Data.EMPTY_TRAVAUX "Garage" "T" = none ∧
    Db.update_task_status Db.init_store "Palier" "T" "Fait" = (false, Db.init_store) ∧
    Db.schedule_task Db.init_store "Palier" "T" 0 none = (false, Db.init_store) ∧
    Db.unschedule_task Db.init_store "Palier" "T" = (false, Db.init_store) ∧
    Db.delete_task Db.init_store "Palier" "T" = (false, Db.init_store) := by
  have hnone : lookupZone Data.EMPTY_TRAVAUX "Garage" = none := rfl
  have hsome : lookupZone Data.EMPTY_TRAVAUX "Palier" = some [] := rfl
  have hvac : ∀ r ∈ Db.init_store.taches, Db.hits Db.init_store "Palier" "T" r = false := by
    intro r hr
    simp [Db.init_store] at hr
  exact ⟨claim_C2_amended_totality.1 _ _ _ _ _ _ hnone,
         claim_C2_amended_totality.2.1 _ _ _ hnone,
         claim_C2_amended_totality.2.2.1 _ _ _ _ _ hsome,
         claim_C2_amended_totality.2.2.2.1 _ _ _ _ _ _ hsome,
         claim_C2_amended_totality.2.2.2.2.1 _ _ _ _ hsome,
         claim_C2_amended_totality.2.2.2.2.2.1 _ _ _ _ hnone,
         claim_C2_amended_totality.2.2.2.2.2.2.1 _ _ _ _ _ hnone,
         claim_C2_amended_totality.2.2.2.2.2.2.2.1 _ _ _ hnone,
         claim_C2_amended_totality.2.2.2.2.2.2.2.2.1 _ _ _ _ hvac,
         claim_C2_amended_totality.2.2.2.2.2.2.2.2.2.1 _ _ _ _ _ hvac,
         claim_C2_amended_totality.2.2.2.2.2.2.2.2.2.2.1 _ _ _ hvac,
         claim_C2_amended_totality.2.2.2.2.2.2.2.2.2.2.2 _ _ _ hvac⟩

/-- Claim C8: the migration script writes the configuration flag only
when the migration call returned `True`; on a `False` return or an
escaped exception the configuration file is unchanged, so the file
backend remains authoritative (third clause: an unreadable JSON source
makes `migrate_from_json` return false and the flag is untouched). -/
theorem claim_C8_flag_only_on_success :
    (∀ (cfg : Option String) (je : Bool) (r : MigResult),
        r ≠ MigResult.ok true → migration_script cfg je r = cfg) ∧
    (∀ (cfg : Option String) (je : Bool) (r : MigResult),
        migration_script cfg je r ≠ cfg → r = MigResult.ok true) ∧
    (∀ (cfg : Option String) (je : Bool) (rs : RStore),
        (Db.migrate_from_json none rs).1 = false ∧
        migration_script cfg je (MigResult.ok (Db.migrate_from_json none rs).1) = cfg) := by
  have hrun : ∀ (je : Bool) (r : MigResult) (cfg : Option String),
      r ≠ MigResult.ok true → migration_script_run je r cfg = cfg := by
    intro je r cfg h
    unfold migration_script_run
    cases je
    · simp
    · rcases r with b | _
      · cases b
        · simp
        · exact absurd rfl h
      · simp
  have hscript : ∀ (cfg : Option String) (je : Bool) (r : MigResult),
      r ≠ MigResult.ok true → migration_script cfg je r = cfg := by
    intro cfg je r h
    rcases cfg with _ | content
    · exact hrun je r none h
    · unfold migration_script
      by_cases hc : containsSub "use_sqlite=True" content = true
      · simp [hc]
      · simp only [hc, Bool.false_eq_true, if_neg, not_false_iff]
        exact hrun je r (some content) h
  refine ⟨hscript, ?_, ?_⟩
  · intro cfg je r h
    rcases r with b | _
    · cases b
      · exact absurd (hscript cfg je (MigResult.ok false) (by simp)) h
      · rfl
    · exact absurd (hscript cfg je MigResult.exc (by simp)) h
  · intro cfg je rs
    exact ⟨rfl, hscript cfg je (MigResult.ok false) (by simp)⟩

/-- Witness for claim C8: concrete failure outcomes leave a concrete
configuration file unchanged, and a concrete success is the only way the
script output differs from its input. -/
theorem claim_C8_flag_witness :
    migration_script (some "use_sqlite=False\n") true MigResult.exc =
      some "use_sqlite=False\n" ∧
    migration_script (some "use_sqlite=False\n") true (MigResult.ok false) =
      some "use_sqlite=False\n" ∧
    MigResult.ok true = MigResult.ok true ∧
    ((Db.migrate_from_json none Db.init_store).1 = false ∧
      migration_script none true (MigResult.ok (Db.migrate_from_json none Db.init_store).1) = none) := by
  refine ⟨claim_C8_flag_only_on_success.1 _ _ _ (by simp),
          claim_C8_flag_only_on_success.1 _ _ _ (by simp),
          claim_C8_flag_only_on_success.2.1 none true (MigResult.ok true) ?_,
          claim_C8_flag_only_on_success.2.2 none true Db.init_store⟩
  intro h
  rw [show migration_script none true (MigResult.ok true) = some "use_sqlite=True\n" from rfl] at h
  cases h

/-- Claim C1: scheduling a stored task (zone, title) with any start date
and a positive custom duration returns true, and the task read back has
`date_fin = start + d` days exactly and `duree_estimee = d` (the override
is persisted); with the duration omitted the end is the start plus the
stored estimated duration; in the file backend (read back as the first
matching task of the zone) and in the relational backend (every matching
row). -/
theorem claim_C1_schedule_task :
    (∀ (s : FStore) (z t : String) (start : ℚ) (d? : Option ℚ) (ts : List Tache) (tk : Tache),
        (∀ d ∈ d?, 0 < d) → lookupZone s z = some ts →
        ts.find? (fun x => x.titre == t) = some tk →
        ∃ s', Data.schedule_task s z t start d? = some (true, s') ∧
          (Data.get_tasks_by_zone s' z).find? (fun x => x.titre == t) =
            some { tk with duree_estimee := d?.getD tk.duree_estimee,
                           date_debut := some start,
                           date_fin := some (start + d?.getD tk.duree_estimee) }) ∧
    (∀ (rs : RStore) (z t : String) (start : ℚ) (d? : Option ℚ) (r₀ : TRow),
        (∀ d ∈ d?, 0 < d) → rs.taches.find? (Db.hits rs z t) = some r₀ →
        ∃ rs', Db.schedule_task rs z t start d? = (true, rs') ∧
          rs'.zones = rs.zones ∧
          ∀ r' ∈ rs'.taches, Db.hits rs' z t r' = true →
            r'.date_debut = some start ∧
            r'.date_fin = some (start + d?.getD r₀.duree_estimee) ∧
            r'.duree_estimee = d?.getD r₀.duree_estimee) := by
  constructor
  · intro s z t start d? ts tk _ hz ht
    have hsome : (ts.find? (fun x => x.titre == t)).isSome := by
      rw [ht]
      rfl
    obtain ⟨ts', hu⟩ := Option.isSome_iff_exists.mp
      (updateFirst_isSome (f := fun x =>
        let duration := d?.getD x.duree_estimee
        { x with duree_estimee := duration,
                 date_debut := some start,
                 date_fin := some (start + duration) }) hsome)
    have hread : Data.get_tasks_by_zone (setZone s z ts') z = ts' := by
      unfold Data.get_tasks_by_zone
      rw [lookupZone_setZone_self s z ts' (by rw [hz]; rfl)]
      rfl
    have hfind := updateFirst_find? (p := fun x : Tache => x.titre == t) (f := fun x : Tache =>
        let duration := d?.getD x.duree_estimee
        { x with duree_estimee := duration,
                 date_debut := some start,
                 date_fin := some (start + duration) }) (fun a ha => ha) hu
    refine ⟨setZone s z ts', by simp only [Data.schedule_task, hz, hu], ?_⟩
    rw [hread, hfind, ht]
    rfl
  · intro rs z t start d? r₀ _ hr
    have hmem : r₀ ∈ rs.taches := List.mem_of_find?_eq_some hr
    have hhit : Db.hits rs z t r₀ = true := List.find?_some hr
    have key : ∀ dd : ℚ, ∃ rs', Db.scheduleWith rs z t start dd = (true, rs') ∧
        rs'.zones = rs.zones ∧
        ∀ r' ∈ rs'.taches, Db.hits rs' z t r' = true →
          r'.date_debut = some start ∧ r'.date_fin = some (start + dd) ∧
          r'.duree_estimee = dd := by
      intro dd
      refine ⟨{ rs with taches := rs.taches.map (fun r =>
          if Db.hits rs z t r then
            { r with date_debut := some start,
                     date_fin := some (start + dd),
                     duree_estimee := dd }
          else r) }, ?_, rfl, ?_⟩
      · have hpos : 0 < (rs.taches.filter (Db.hits rs z t)).length :=
          List.length_pos.mpr (List.ne_nil_of_mem (List.mem_filter.mpr ⟨hmem, hhit⟩))
        unfold Db.scheduleWith
        rw [decide_eq_true hpos]
      · intro r' hr' hh
        have hh' : Db.hits rs z t r' = true := hh
        obtain ⟨r, hrmem, hreq⟩ := List.mem_map.mp hr'
        by_cases hc : Db.hits rs z t r = true
        · rw [if_pos hc] at hreq
          refine ⟨?_, ?_, ?_⟩ <;> rw [← hreq]
        · rw [if_neg hc] at hreq
          rw [← hreq] at hh'
          exact absurd hh' hc
    rcases d? with _ | d
    · obtain ⟨rs', h1, h2, h3⟩ := key r₀.duree_estimee
      refine ⟨rs', ?_, h2, h3⟩
      simp only [Db.schedule_task, hr]
      exact h1
    · obtain ⟨rs', h1, h2, h3⟩ := key d
      exact ⟨rs', h1, h2, h3⟩

/-- Witness for claim C1: a one-task store in each backend, scheduled
from day 10; with override 3 the file task reads back with duration 3 and
end 13; without override the relational row keeps duration 2 and ends at
day 12. -/
theorem claim_C1_schedule_witness :
    (∃ s', Data.schedule_task
        [("Cuisine", [⟨"Poser le carrelage", "À faire", "Élevée", 2, none, none⟩])]
        "Cuisine" "Poser le carrelage" 10 (some 3) = some (true, s') ∧
      (Data.get_tasks_by_zone s' "Cuisine").find?
          (fun x => x.titre == "Poser le carrelage") =
        some ⟨"Poser le carrelage", "À faire", "Élevée", 3, some 10, some (10 + 3)⟩) ∧
    (∃ rs', Db.schedule_task
        ⟨[(1, "Cuisine")], [⟨1, 1, "Poser le carrelage", "À faire", "Élevée", 2, none, none⟩], 2, 2⟩
        "Cuisine" "Poser le carrelage" 10 none = (true, rs') ∧
      rs'.zones = [(1, "Cuisine")] ∧
      ∀ r' ∈ rs'.taches,
        Db.hits rs' "Cuisine" "Poser le carrelage" r' = true →
          r'.date_debut = some 10 ∧ r'.date_fin = some (10 + 2) ∧
          r'.duree_estimee = 2) := by
  constructor
  · exact claim_C1_schedule_task.1 _ "Cuisine" "Poser le carrelage" 10 (some 3)
      [⟨"Poser le carrelage", "À faire", "Élevée", 2, none, none⟩]
      ⟨"Poser le carrelage", "À faire", "Élevée", 2, none, none⟩
      (by intro d hd; simp at hd; subst hd; norm_num) rfl rfl
  · exact claim_C1_schedule_task.2 _ "Cuisine" "Poser le carrelage" 10 none
      ⟨1, 1, "Poser le carrelage", "À faire", "Élevée", 2, none, none⟩
      (by intro d hd; simp at hd) rfl

/-- Claim C4: after a successful `add_task (z, t)`, an immediately
repeated `add_task (z, t)` returns false and leaves the store exactly as
it was, and the store holds exactly one task for (z, t); in the file
backend and in the relational backend (where the count is over the rows
matching the UNIQUE (zone_id, titre) target). -/
theorem claim_C4_add_task_twice :
    (∀ (s s₁ : FStore) (z t p₁ st₁ p₂ st₂ : String) (d₁ d₂ : ℚ),
        Data.add_task s z t p₁ d₁ st₁ = (true, s₁) →
        Data.add_task s₁ z t p₂ d₂ st₂ = (false, s₁) ∧
        ((Data.get_tasks_by_zone s₁ z).filter (fun x => x.titre == t)).length = 1) ∧
    (∀ (rs rs₁ : RStore) (z t p₁ st₁ p₂ st₂ : String) (d₁ d₂ : ℚ),
        Db.add_task rs z t p₁ d₁ st₁ = (true, rs₁) →
        Db.add_task rs₁ z t p₂ d₂ st₂ = (false, rs₁) ∧
        (rs₁.taches.filter (Db.hits rs₁ z t)).length = 1) := by
  constructor
  · intro s s₁ z t p₁ st₁ p₂ st₂ d₁ d₂ h
    simp only [Data.add_task] at h
    rcases hl : lookupZone s z with _ | ts
    · rw [hl] at h
      simp at h
    · simp only [hl] at h
      by_cases ha : ts.any (fun x => x.titre == t) = true
      · rw [if_pos ha] at h
        simp at h
      · rw [if_neg ha] at h
        have hs₁ : s₁ = setZone s z (ts ++ [⟨t, st₁, p₁, d₁, none, none⟩]) :=
          ((Prod.mk.injEq _ _ _ _).mp h).2.symm
        subst hs₁
        have hl₁ : lookupZone (setZone s z (ts ++ [⟨t, st₁, p₁, d₁, none, none⟩])) z =
            some (ts ++ [⟨t, st₁, p₁, d₁, none, none⟩]) :=
          lookupZone_setZone_self s z _ (by rw [hl]; rfl)
        have hany : (ts ++ [(⟨t, st₁, p₁, d₁, none, none⟩ : Tache)]).any
            (fun x => x.titre == t) = true := by
          rw [List.any_append]
          simp
        have hfalse : ∀ x ∈ ts, (x.titre == t) = false := by
          intro x hx
          rcases Bool.eq_false_or_eq_true (x.titre == t) with hb | hb
          · exact absurd (List.any_of_mem hx hb) ha
          · exact hb
        constructor
        · simp only [Data.add_task, hl₁, hany, if_pos]
        · unfold Data.get_tasks_by_zone
          rw [hl₁]
          show ((ts ++ [(⟨t, st₁, p₁, d₁, none, none⟩ : Tache)]).filter
            (fun x => x.titre == t)).length = 1
          rw [List.filter_append, List.filter_eq_nil_iff.mpr ?_]
          · simp
          · intro x hx
            simp [hfalse x hx]
  · intro rs rs₁ z t p₁ st₁ p₂ st₂ d₁ d₂ h
    have main : ∀ (i tid : Nat),
        Db.zoneIdOf rs₁ z = some i →
        rs₁.taches = rs.taches ++ [⟨tid, i, t, st₁, p₁, d₁, none, none⟩] →
        (∀ r ∈ rs.taches, (r.zone_id == i && r.titre == t) = false) →
        Db.add_task rs₁ z t p₂ d₂ st₂ = (false, rs₁) ∧
        (rs₁.taches.filter (Db.hits rs₁ z t)).length = 1 := by
      intro i tid hzid htq hall
      have hbeq : ∀ a b : ℕ, (a == b) = (b == a) := by
        intro a b
        by_cases hab : a = b
        · simp [hab]
        · simp [hab, Ne.symm hab]
      have hhit : ∀ r : TRow, Db.hits rs₁ z t r = (r.zone_id == i && r.titre == t) := by
        intro r
        unfold Db.hits
        rw [hzid]
        show (r.titre == t && (i == r.zone_id)) = (r.zone_id == i && r.titre == t)
        rw [hbeq i r.zone_id, Bool.and_comm]
      have hanyt : rs₁.taches.any (fun r => r.zone_id == i && r.titre == t) = true := by
        rw [htq, List.any_append]
        simp
      constructor
      · simp only [Db.add_task, hzid, hanyt, if_pos]
      · rw [htq, List.filter_append, List.filter_eq_nil_iff.mpr ?_, List.nil_append]
        · have : Db.hits rs₁ z t ⟨tid, i, t, st₁, p₁, d₁, none, none⟩ = true := by
            rw [hhit]
            simp
          rw [List.filter_cons_of_pos this]
          rfl
        · intro r hr
          rw [hhit r, hall r hr]
          simp
    simp only [Db.add_task] at h
    rcases hz : Db.zoneIdOf rs z with _ | i
    · simp only [hz] at h
      by_cases ha : rs.taches.any (fun r => r.zone_id == rs.nextZoneId && r.titre == t) = true
      · rw [if_pos ha] at h
        simp at h
      · rw [if_neg ha] at h
        have hrs₁ : rs₁ = { rs with
            zones := rs.zones ++ [(rs.nextZoneId, z)],
            nextZoneId := rs.nextZoneId + 1,
            taches := rs.taches ++ [⟨rs.nextTacheId, rs.nextZoneId, t, st₁, p₁, d₁, none, none⟩],
            nextTacheId := rs.nextTacheId + 1 } :=
          ((Prod.mk.injEq _ _ _ _).mp h).2.symm
        have hzid : Db.zoneIdOf rs₁ z = some rs.nextZoneId := by
          rw [hrs₁]
          unfold Db.zoneIdOf at hz ⊢
          rw [List.find?_append]
          have hfn : rs.zones.find? (fun p => p.2 == z) = none :=
            Option.map_eq_none'.mp hz
          rw [hfn]
          simp
        refine main rs.nextZoneId rs.nextTacheId hzid (by rw [hrs₁]) ?_
        intro r hr
        rcases Bool.eq_false_or_eq_true (r.zone_id == rs.nextZoneId && r.titre == t) with hb | hb
        · exact absurd (List.any_of_mem hr hb) ha
        · exact hb
    · simp only [hz] at h
      by_cases ha : rs.taches.any (fun r => r.zone_id == i && r.titre == t) = true
      · rw [if_pos ha] at h
        simp at h
      · rw [if_neg ha] at h
        have hrs₁ : rs₁ = { rs with
            taches := rs.taches ++ [⟨rs.nextTacheId, i, t, st₁, p₁, d₁, none, none⟩],
            nextTacheId := rs.nextTacheId + 1 } :=
          ((Prod.mk.injEq _ _ _ _).mp h).2.symm
        have hzid : Db.zoneIdOf rs₁ z = some i := by
          rw [hrs₁]
          exact hz
        refine main i rs.nextTacheId hzid (by rw [hrs₁]) ?_
        intro r hr
        rcases Bool.eq_false_or_eq_true (r.zone_id == i && r.titre == t) with hb | hb
        · exact absurd (List.any_of_mem hr hb) ha
        · exact hb

/-- Witness for claim C4: adding the same (zone, title) twice on the
default stores of both backends. -/
theorem claim_C4_add_twice_witness :
    Data.add_task ((Data.add_task Data.EMPTY_TRAVAUX "Cuisine" "Poser" "Élevée" 2 "À faire").2)
      "Cuisine" "Poser" "Basse" 3 "En cours" =
      (false, (Data.add_task Data.EMPTY_TRAVAUX "Cuisine" "Poser" "Élevée" 2 "À faire").2) ∧
    ((Data.get_tasks_by_zone
        ((Data.add_task Data.EMPTY_TRAVAUX "Cuisine" "Poser" "Élevée" 2 "À faire").2)
        "Cuisine").filter (fun x => x.titre == "Poser")).length = 1 ∧
    Db.add_task ((Db.add_task Db.init_store "Cuisine" "Poser" "Élevée" 2 "À faire").2)
      "Cuisine" "Poser" "Basse" 3 "En cours" =
      (false, (Db.add_task Db.init_store "Cuisine" "Poser" "Élevée" 2 "À faire").2) ∧
    (((Db.add_task Db.init_store "Cuisine" "Poser" "Élevée" 2 "À faire").2).taches.filter
        (Db.hits ((Db.add_task Db.init_store "Cuisine" "Poser" "Élevée" 2 "À faire").2)
          "Cuisine" "Poser")).length = 1 := by
  have h1 := claim_C4_add_task_twice.1 Data.EMPTY_TRAVAUX
    ((Data.add_task Data.EMPTY_TRAVAUX "Cuisine" "Poser" "Élevée" 2 "À faire").2)
    "Cuisine" "Poser" "Élevée" "À faire" "Basse" "En cours" 2 3 rfl
  have h2 := claim_C4_add_task_twice.2 Db.init_store
    ((Db.add_task Db.init_store "Cuisine" "Poser" "Élevée" 2 "À faire").2)
    "Cuisine" "Poser" "Élevée" "À faire" "Basse" "En cours" 2 3 rfl
  exact ⟨h1.1, h1.2, h2.1, h2.2⟩

/-- Claim C9: whenever the relational `add_task` returns false, the
database is exactly as before the call — the failed row is not inserted
and a zone row created on the fly inside the same transaction is rolled
back with it. -/
theorem claim_C9_add_task_rollback :
    ∀ (rs : RStore) (z t p st : String) (d : ℚ) (rs' : RStore),
      Db.add_task rs z t p d st = (false, rs') → rs' = rs := by
  intro rs z t p st d rs' h
  simp only [Db.add_task] at h
  rcases hz : Db.zoneIdOf rs z with _ | i
  · simp only [hz] at h
    by_cases hc : rs.taches.any (fun r => r.zone_id == rs.nextZoneId && r.titre == t) = true
    · rw [if_pos hc] at h
      exact (((Prod.mk.injEq _ _ _ _).mp h).2).symm
    · rw [if_neg hc] at h
      simp at h
  · simp only [hz] at h
    by_cases hc : rs.taches.any (fun r => r.zone_id == i && r.titre == t) = true
    · rw [if_pos hc] at h
      exact (((Prod.mk.injEq _ _ _ _).mp h).2).symm
    · rw [if_neg hc] at h
      simp at h

/-- Witness for claim C9: a duplicate insert on the default database
returns false and the theorem yields that the store is unchanged. -/
theorem claim_C9_add_task_rollback_witness :
    Db.add_task ((Db.add_task Db.init_store "Cuisine" "T" "Moyenne" 1 "À faire").2)
        "Cuisine" "T" "Basse" 2 "En cours" =
      (false, (Db.add_task Db.init_store "Cuisine" "T" "Moyenne" 1 "À faire").2) ∧
    ((Db.add_task Db.init_store "Cuisine" "T" "Moyenne" 1 "À faire").2 =
      (Db.add_task Db.init_store "Cuisine" "T" "Moyenne" 1 "À faire").2) := by
  refine ⟨rfl, claim_C9_add_task_rollback _ "Cuisine" "T" "Basse" "En cours" 2 _ rfl⟩

/-- Claim C10: a successful `update_task_status (z, t, s)` changes only
the `statut` field of the matched task: in the file backend the zone list
and all other zones are untouched and zone z differs only in that task's
status; in the relational backend the zone table and counters are
untouched and every row keeps all fields except that the matching rows
get the new status. -/
theorem claim_C10_update_status_frame :
    (∀ (s : FStore) (z t ns : String) (s' : FStore),
        Data.update_task_status s z t ns = some (true, s') →
        Data.get_zones s' = Data.get_zones s ∧
        (∀ w, w ≠ z → lookupZone s' w = lookupZone s w) ∧
        ∃ l₁ tk l₂, lookupZone s z = some (l₁ ++ tk :: l₂) ∧
          (∀ y ∈ l₁, (y.titre == t) = false) ∧ tk.titre = t ∧
          lookupZone s' z = some (l₁ ++ { tk with statut := ns } :: l₂)) ∧
    (∀ (rs : RStore) (z t ns : String) (rs' : RStore),
        Db.update_task_status rs z t ns = (true, rs') →
        rs'.zones = rs.zones ∧ rs'.nextZoneId = rs.nextZoneId ∧
        rs'.nextTacheId = rs.nextTacheId ∧
        List.Forall₂ (fun r r' : TRow =>
          r'.id = r.id ∧ r'.zone_id = r.zone_id ∧ r'.titre = r.titre ∧
          r'.priorite = r.priorite ∧ r'.duree_estimee = r.duree_estimee ∧
          r'.date_debut = r.date_debut ∧ r'.date_fin = r.date_fin ∧
          (Db.hits rs z t r = false → r' = r) ∧
          (Db.hits rs z t r = true → r'.statut = ns)) rs.taches rs'.taches) := by
  constructor
  · intro s z t ns s' h
    simp only [Data.update_task_status] at h
    rcases hl : lookupZone s z with _ | ts
    · rw [hl] at h
      simp at h
    · simp only [hl] at h
      rcases hu : updateFirst (fun x => x.titre == t)
          (fun x => { x with statut := ns }) ts with _ | ts'
      · simp only [hu] at h
        simp at h
      · simp only [hu, Option.some.injEq, Prod.mk.injEq, true_and] at h
        subst h
        obtain ⟨l₁, tk, l₂, hts, hl₁, htk, hts'⟩ := updateFirst_eq_some hu
        refine ⟨setZone_keys s z ts', fun w hw => lookupZone_setZone_ne s ts' hw,
          l₁, tk, l₂, ?_, hl₁, by simpa using htk, ?_⟩
        · rw [hts]
        · rw [lookupZone_setZone_self s z ts' (by rw [hl]; rfl), hts']
  · intro rs z t ns rs' h
    simp only [Db.update_task_status, Prod.mk.injEq] at h
    have hrs' : rs' = { rs with taches := rs.taches.map (fun r =>
        if Db.hits rs z t r then { r with statut := ns } else r) } := h.2.symm
    subst hrs'
    refine ⟨rfl, rfl, rfl, ?_⟩
    show List.Forall₂ _ rs.taches (rs.taches.map _)
    have hR : ∀ r : TRow,
        (fun r r' : TRow =>
          r'.id = r.id ∧ r'.zone_id = r.zone_id ∧ r'.titre = r.titre ∧
          r'.priorite = r.priorite ∧ r'.duree_estimee = r.duree_estimee ∧
          r'.date_debut = r.date_debut ∧ r'.date_fin = r.date_fin ∧
          (Db.hits rs z t r = false → r' = r) ∧
          (Db.hits rs z t r = true → r'.statut = ns)) r
          (if Db.hits rs z t r then { r with statut := ns } else r) := by
      intro r
      by_cases hc : Db.hits rs z t r = true
      · rw [if_pos hc]
        exact ⟨rfl, rfl, rfl, rfl, rfl, rfl, rfl,
          fun hf => absurd hc (by simp [hf]), fun _ => rfl⟩
      · rw [if_neg hc]
        exact ⟨rfl, rfl, rfl, rfl, rfl, rfl, rfl,
          fun _ => rfl, fun htr => absurd htr hc⟩
    have hall : ∀ l : List TRow, List.Forall₂ (fun r r' : TRow =>
        r'.id = r.id ∧ r'.zone_id = r.zone_id ∧ r'.titre = r.titre ∧
        r'.priorite = r.priorite ∧ r'.duree_estimee = r.duree_estimee ∧
        r'.date_debut = r.date_debut ∧ r'.date_fin = r.date_fin ∧
        (Db.hits rs z t r = false → r' = r) ∧
        (Db.hits rs z t r = true → r'.statut = ns)) l (l.map (fun r =>
        if Db.hits rs z t r then { r with statut := ns } else r)) := by
      intro l
      induction l with
      | nil => exact List.Forall₂.nil
      | cons x xs ih => exact List.Forall₂.cons (hR x) ih
    exact hall rs.taches

/-- Witness for claim C10: updating the status of a one-task store in
each backend. -/
theorem claim_C10_update_status_frame_witness :
    (Data.get_zones ((Data.update_task_status
        [("Cuisine", [⟨"T", "À faire", "Moyenne", 1, none, none⟩])]
        "Cuisine" "T" "Terminé").getD (false, [])).2 =
      Data.get_zones [("Cuisine", [⟨"T", "À faire", "Moyenne", 1, none, none⟩])] ∧
      (∃ l₁ tk l₂, lookupZone
          [("Cuisine", [(⟨"T", "À faire", "Moyenne", 1, none, none⟩ : Tache)])] "Cuisine" =
          some (l₁ ++ tk :: l₂) ∧
        (∀ y ∈ l₁, (y.titre == "T") = false) ∧ tk.titre = "T" ∧
        lookupZone ((Data.update_task_status
            [("Cuisine", [⟨"T", "À faire", "Moyenne", 1, none, none⟩])]
            "Cuisine" "T" "Terminé").getD (false, [])).2 "Cuisine" =
          some (l₁ ++ { tk with statut := "Terminé" } :: l₂))) ∧
    ((Db.update_task_status
        ⟨[(1, "Cuisine")], [⟨1, 1, "T", "À faire", "Moyenne", 1, none, none⟩], 2, 2⟩
        "Cuisine" "T" "Terminé").2.zones = [(1, "Cuisine")] ∧
      List.Forall₂ (fun r r' : TRow =>
        r'.id = r.id ∧ r'.zone_id = r.zone_id ∧ r'.titre = r.titre ∧
        r'.priorite = r.priorite ∧ r'.duree_estimee = r.duree_estimee ∧
        r'.date_debut = r.date_debut ∧ r'.date_fin = r.date_fin ∧
        (Db.hits ⟨[(1, "Cuisine")], [⟨1, 1, "T", "À faire", "Moyenne", 1, none, none⟩], 2, 2⟩
            "Cuisine" "T" r = false → r' = r) ∧
        (Db.hits ⟨[(1, "Cuisine")], [⟨1, 1, "T", "À faire", "Moyenne", 1, none, none⟩], 2, 2⟩
            "Cuisine" "T" r = true → r'.statut = "Terminé"))
        [⟨1, 1, "T", "À faire", "Moyenne", 1, none, none⟩]
        (Db.update_task_status
          ⟨[(1, "Cuisine")], [⟨1, 1, "T", "À faire", "Moyenne", 1, none, none⟩], 2, 2⟩
          "Cuisine" "T" "Terminé").2.taches) := by
  have h1 := claim_C10_update_status_frame.1
    [("Cuisine", [⟨"T", "À faire", "Moyenne", 1, none, none⟩])] "Cuisine" "T" "Terminé"
    ((Data.update_task_status
        [("Cuisine", [⟨"T", "À faire", "Moyenne", 1, none, none⟩])]
        "Cuisine" "T" "Terminé").getD (false, [])).2 rfl
  have h2 := claim_C10_update_status_frame.2
    ⟨[(1, "Cuisine")], [⟨1, 1, "T", "À faire", "Moyenne", 1, none, none⟩], 2, 2⟩
    "Cuisine" "T" "Terminé"
    (Db.update_task_status
      ⟨[(1, "Cuisine")], [⟨1, 1, "T", "À faire", "Moyenne", 1, none, none⟩], 2, 2⟩
      "Cuisine" "T" "Terminé").2 rfl
  exact ⟨⟨h1.1, h1.2.2⟩, ⟨h2.1, h2.2.2.2⟩⟩

theorem updateFirst_map_titre {p : Tache → Bool} {f : Tache → Tache}
    (hf : ∀ a, (f a).titre = a.titre) {l l' : List Tache}
    (h : updateFirst p f l = some l') : l'.map (·.titre) = l.map (·.titre) := by
  obtain ⟨l₁, x, l₂, rfl, _, _, rfl⟩ := updateFirst_eq_some h
  simp [hf x]

theorem FInv_empty : FInv Data.EMPTY_TRAVAUX := by
  constructor
  · decide
  · intro q hq
    simp only [Data.EMPTY_TRAVAUX, List.mem_cons, List.not_mem_nil, or_false] at hq
    rcases hq with h | h | h | h <;> rw [h] <;> exact ⟨List.nodup_nil, fun tk htk => absurd htk (List.not_mem_nil tk)⟩

theorem FInv_setZone {s : FStore} {z : String} {ts' : List Tache} (hinv : FInv s)
    (hn : (ts'.map (·.titre)).Nodup) (hok : ∀ tk ∈ ts', TacheOk tk) :
    FInv (setZone s z ts') := by
  refine ⟨?_, ?_⟩
  · rw [show (setZone s z ts').map (·.1) = s.map (·.1) from setZone_keys s z ts']
    exact hinv.1
  · intro q hq
    unfold setZone at hq
    obtain ⟨q₀, hq₀, hqe⟩ := List.mem_map.mp hq
    by_cases hz : q₀.1 = z
    · rw [if_pos (by simpa using hz)] at hqe
      rw [← hqe]
      exact ⟨hn, hok⟩
    · rw [if_neg (by simpa using hz)] at hqe
      rw [← hqe]
      exact hinv.2 q₀ hq₀

theorem lookupZone_entry {s : FStore} {z : String} {ts : List Tache}
    (hl : lookupZone s z = some ts) : ∃ q ∈ s, q.2 = ts := by
  unfold lookupZone at hl
  rcases hf : s.find? (fun p => p.1 == z) with _ | q
  · rw [hf] at hl
    cases hl
  · rw [hf] at hl
    exact ⟨q, List.mem_of_find?_eq_some hf, by simpa using hl⟩

theorem FInv_update_shape {s : FStore} {z t : String} {f : Tache → Tache} {b : Bool}
    {s' : FStore}
    (hft : ∀ a, (f a).titre = a.titre)
    (hfo : ∀ a, TacheOk a → TacheOk (f a))
    (hinv : FInv s)
    (h : (match lookupZone s z with
          | none => none
          | some ts =>
            match updateFirst (fun x => x.titre == t) f ts with
            | none => some (false, s)
            | some ts' => some (true, setZone s z ts')) = some (b, s')) :
    FInv s' := by
  rcases hl : lookupZone s z with _ | ts
  · simp only [hl] at h
    cases h
  · simp only [hl] at h
    rcases hu : updateFirst (fun x => x.titre == t) f ts with _ | ts'
    · rw [hu] at h
      simp only [Option.some.injEq, Prod.mk.injEq] at h
      rw [← h.2]
      exact hinv
    · rw [hu] at h
      simp only [Option.some.injEq, Prod.mk.injEq] at h
      rw [← h.2]
      obtain ⟨q, hq, hq2⟩ := lookupZone_entry hl
      have hzinv := hinv.2 q hq
      rw [hq2] at hzinv
      apply FInv_setZone hinv
      · rw [updateFirst_map_titre hft hu]
        exact hzinv.1
      · intro tk htk
        obtain ⟨l₁, x, l₂, hts, _, _, hts'⟩ := updateFirst_eq_some hu
        rw [hts'] at htk
        rcases List.mem_append.mp htk with h1 | h1
        · exact hzinv.2 tk (by rw [hts]; exact List.mem_append_left _ h1)
        · rcases List.mem_cons.mp h1 with h2 | h2
          · rw [h2]
            exact hfo x (hzinv.2 x
              (by rw [hts]; exact List.mem_append_right _ (List.mem_cons_self x l₂)))
          · exact hzinv.2 tk
              (by rw [hts]; exact List.mem_append_right _ (List.mem_cons_of_mem _ h2))

theorem FInv_step {s s' : FStore} (hstep : FStep s s') (hinv : FInv s) : FInv s' := by
  cases hstep with
  | update z t ns b h =>
    exact FInv_update_shape (f := fun x => { x with statut := ns })
      (fun a => rfl) (fun a ha => ha) hinv h
  | sched z t st d? b h =>
    refine FInv_update_shape (f := fun x =>
      let duration := d?.getD x.duree_estimee
      { x with duree_estimee := duration,
               date_debut := some st,
               date_fin := some (st + duration) }) (fun a => rfl) ?_ hinv h
    intro a _
    constructor
    · simp
    · intro x hx y hy
      simp only [Option.mem_def, Option.some.injEq] at hx hy
      rw [← hx, ← hy]
  | unsched z t b h =>
    refine FInv_update_shape (f := fun x => { x with date_debut := none, date_fin := none })
      (fun a => rfl) ?_ hinv h
    intro a _
    constructor
    · simp
    · intro x hx
      simp at hx
  | add z t p d st b h =>
    simp only [Data.add_task] at h
    rcases hl : lookupZone s z with _ | ts
    · simp only [hl, Prod.mk.injEq] at h
      rw [← h.2]
      exact hinv
    · simp only [hl] at h
      by_cases hc : ts.any (fun x => x.titre == t) = true
      · rw [if_pos hc] at h
        simp only [Prod.mk.injEq] at h
        rw [← h.2]
        exact hinv
      · rw [if_neg hc] at h
        simp only [Prod.mk.injEq] at h
        rw [← h.2]
        obtain ⟨q, hq, hq2⟩ := lookupZone_entry hl
        have hzinv := hinv.2 q hq
        rw [hq2] at hzinv
        have hfalse : ∀ x ∈ ts, (x.titre == t) = false := by
          intro x hx
          rcases Bool.eq_false_or_eq_true (x.titre == t) with hb | hb
          · exact absurd (List.any_of_mem hx hb) hc
          · exact hb
        apply FInv_setZone hinv
        · rw [List.map_append, List.nodup_append]
          refine ⟨hzinv.1, by simp, ?_⟩
          intro a ha hb
          simp only [List.map_cons, List.map_nil, List.mem_singleton] at hb
          obtain ⟨x, hx, hxa⟩ := List.mem_map.mp ha
          have := hfalse x hx
          rw [hxa, hb] at this
          simp at this
        · intro tk htk
          rcases List.mem_append.mp htk with h1 | h1
          · exact hzinv.2 tk h1
          · rcases List.mem_cons.mp h1 with h2 | h2
            · rw [h2]
              exact ⟨by simp, by simp⟩
            · exact absurd h2 (List.not_mem_nil tk)
  | del z t b h =>
    simp only [Data.delete_task] at h
    rcases hl : lookupZone s z with _ | ts
    · simp only [hl, Prod.mk.injEq] at h
      rw [← h.2]
      exact hinv
    · simp only [hl] at h
      rcases hr : removeFirst (fun x => x.titre == t) ts with _ | ts'
      · rw [hr] at h
        simp only [Prod.mk.injEq] at h
        rw [← h.2]
        exact hinv
      · rw [hr] at h
        simp only [Prod.mk.injEq] at h
        rw [← h.2]
        obtain ⟨q, hq, hq2⟩ := lookupZone_entry hl
        have hzinv := hinv.2 q hq
        rw [hq2] at hzinv
        obtain ⟨l₁, x, l₂, hts, _, _, hts'⟩ := removeFirst_eq_some hr
        have hsub : List.Sublist ts' ts := by
          rw [hts, hts']
          exact (List.sublist_cons_self x l₂).append_left l₁
        apply FInv_setZone hinv
        · exact hzinv.1.sublist (hsub.map (·.titre))
        · intro tk htk
          exact hzinv.2 tk (hsub.subset htk)
  | reset b h =>
    have h2 : Data.EMPTY_TRAVAUX = s' := ((Prod.mk.injEq _ _ _ _).mp h).2
    rw [← h2]
    exact FInv_empty

theorem FReach_inv {s : FStore} (h : FReach s) : FInv s := by
  induction h with
  | init => exact FInv_empty
  | step _ hstep ih => exact FInv_step hstep ih

theorem find?_fst_unique {α β : Type} [BEq α] [LawfulBEq α] {l : List (α × β)}
    (h : (l.map (·.1)).Nodup) {a : α} {b : β} (hm : (a, b) ∈ l) :
    l.find? (fun q => q.1 == a) = some (a, b) := by
  induction l with
  | nil => cases hm
  | cons q l ih =>
    rw [List.map_cons, List.nodup_cons] at h
    rcases List.mem_cons.mp hm with h1 | h1
    · rw [← h1]
      rw [List.find?_cons_of_pos _ (by simp)]
    · have hne : (q.1 == a) = false := by
        rcases Bool.eq_false_or_eq_true (q.1 == a) with hb | hb
        · have : a ∈ l.map (·.1) := List.mem_map.mpr ⟨(a, b), h1, rfl⟩
          rw [beq_iff_eq] at hb
          rw [hb] at h
          exact absurd this h.1
        · exact hb
      rw [List.find?_cons_of_neg _ (by simp [hne])]
      exact ih h.2 h1

theorem find?_snd_unique {α β : Type} [BEq β] [LawfulBEq β] {l : List (α × β)}
    (h : (l.map (·.2)).Nodup) {a : α} {b : β} (hm : (a, b) ∈ l) :
    l.find? (fun q => q.2 == b) = some (a, b) := by
  induction l with
  | nil => cases hm
  | cons q l ih =>
    rw [List.map_cons, List.nodup_cons] at h
    rcases List.mem_cons.mp hm with h1 | h1
    · rw [← h1]
      rw [List.find?_cons_of_pos _ (by simp)]
    · have hne : (q.2 == b) = false := by
        rcases Bool.eq_false_or_eq_true (q.2 == b) with hb | hb
        · have : b ∈ l.map (·.2) := List.mem_map.mpr ⟨(a, b), h1, rfl⟩
          rw [beq_iff_eq] at hb
          rw [hb] at h
          exact absurd this h.1
        · exact hb
      rw [List.find?_cons_of_neg _ (by simp [hne])]
      exact ih h.2 h1

theorem RInv_init : RInv Db.init_store := by
  refine ⟨by decide, by decide, by decide, by simp [Db.init_store], ?_, ?_⟩ <;>
    · intro r hr
      simp [Db.init_store] at hr

theorem RInv_map {rs : RStore} {g : TRow → TRow}
    (hgz : ∀ r, (g r).zone_id = r.zone_id)
    (hgt : ∀ r, (g r).titre = r.titre)
    (hgo : ∀ r, ((r.date_debut.isSome ↔ r.date_fin.isSome) ∧
        ∀ a ∈ r.date_debut, ∀ b ∈ r.date_fin, b = a + r.duree_estimee) →
      (((g r).date_debut.isSome ↔ (g r).date_fin.isSome) ∧
        ∀ a ∈ (g r).date_debut, ∀ b ∈ (g r).date_fin, b = a + (g r).duree_estimee))
    (hinv : RInv rs) :
    RInv { rs with taches := rs.taches.map g } := by
  obtain ⟨hA, hB, hC, hD, hE, hF⟩ := hinv
  refine ⟨hA, hB, hC, ?_, ?_, ?_⟩
  · show ((rs.taches.map g).map (fun r => (r.zone_id, r.titre))).Nodup
    rw [List.map_map]
    have : ((fun r : TRow => (r.zone_id, r.titre)) ∘ g) =
        (fun r : TRow => (r.zone_id, r.titre)) := by
      funext r
      simp [Function.comp, hgz r, hgt r]
    rw [this]
    exact hD
  · intro r hr
    obtain ⟨r₀, hr₀, hre⟩ := List.mem_map.mp hr
    rw [← hre]
    show ∃ q ∈ rs.zones, q.1 = (g r₀).zone_id
    rw [hgz r₀]
    exact hE r₀ hr₀
  · intro r hr
    obtain ⟨r₀, hr₀, hre⟩ := List.mem_map.mp hr
    rw [← hre]
    exact hgo r₀ (hF r₀ hr₀)

theorem RInv_add {rs rs' : RStore} {z t p st : String} {d : ℚ} {b : Bool}
    (h : Db.add_task rs z t p d st = (b, rs')) (hinv : RInv rs) : RInv rs' := by
  obtain ⟨hA, hB, hC, hD, hE, hF⟩ := hinv
  simp only [Db.add_task] at h
  rcases hz : Db.zoneIdOf rs z with _ | i
  · simp only [hz] at h
    by_cases hc : rs.taches.any (fun r => r.zone_id == rs.nextZoneId && r.titre == t) = true
    · rw [if_pos hc] at h
      rw [← ((Prod.mk.injEq _ _ _ _).mp h).2]
      exact ⟨hA, hB, hC, hD, hE, hF⟩
    · rw [if_neg hc] at h
      rw [← ((Prod.mk.injEq _ _ _ _).mp h).2]
      refine ⟨?_, ?_, ?_, ?_, ?_, ?_⟩
      · show ((rs.zones ++ [(rs.nextZoneId, z)]).map (·.1)).Nodup
        rw [List.map_append, List.nodup_append]
        refine ⟨hA, by simp, ?_⟩
        intro a ha hb
        simp only [List.map_cons, List.map_nil, List.mem_singleton] at hb
        obtain ⟨q, hq, hq1⟩ := List.mem_map.mp ha
        have := hC q hq
        omega
      · show ((rs.zones ++ [(rs.nextZoneId, z)]).map (·.2)).Nodup
        rw [List.map_append, List.nodup_append]
        refine ⟨hB, by simp, ?_⟩
        intro a ha hb
        simp only [List.map_cons, List.map_nil, List.mem_singleton] at hb
        obtain ⟨q, hq, hq2⟩ := List.mem_map.mp ha
        have hfn : rs.zones.find? (fun q => q.2 == z) = none := Option.map_eq_none'.mp hz
        have := List.find?_eq_none.mp hfn q hq
        rw [hq2, hb] at this
        simp at this
      · intro q hq
        show q.1 < rs.nextZoneId + 1
        rcases List.mem_append.mp hq with h1 | h1
        · have := hC q h1
          omega
        · simp only [List.mem_singleton] at h1
          rw [h1]
          omega
      · show ((rs.taches ++
            [(⟨rs.nextTacheId, rs.nextZoneId, t, st, p, d, none, none⟩ : TRow)]).map
          (fun r : TRow => (r.zone_id, r.titre))).Nodup
        rw [List.map_append, List.nodup_append]
        refine ⟨hD, by simp, ?_⟩
        intro a ha hb
        simp only [List.map_cons, List.map_nil, List.mem_singleton] at hb
        obtain ⟨r, hr, hra⟩ := List.mem_map.mp ha
        obtain ⟨q, hq, hq1⟩ := hE r hr
        have hqlt := hC q hq
        rw [← hra] at hb
        have h1 : r.zone_id = rs.nextZoneId := congrArg Prod.fst hb
        omega
      · intro r hr
        rcases List.mem_append.mp hr with h1 | h1
        · obtain ⟨q, hq, hq1⟩ := hE r h1
          exact ⟨q, List.mem_append_left _ hq, hq1⟩
        · simp only [List.mem_singleton] at h1
          refine ⟨(rs.nextZoneId, z), List.mem_append_right _ (by simp), ?_⟩
          rw [h1]
      · intro r hr
        rcases List.mem_append.mp hr with h1 | h1
        · exact hF r h1
        · simp only [List.mem_singleton] at h1
          rw [h1]
          exact ⟨by simp, by simp⟩
  · simp only [hz] at h
    by_cases hc : rs.taches.any (fun r => r.zone_id == i && r.titre == t) = true
    · rw [if_pos hc] at h
      rw [← ((Prod.mk.injEq _ _ _ _).mp h).2]
      exact ⟨hA, hB, hC, hD, hE, hF⟩
    · rw [if_neg hc] at h
      rw [← ((Prod.mk.injEq _ _ _ _).mp h).2]
      refine ⟨hA, hB, hC, ?_, ?_, ?_⟩
      · show ((rs.taches ++
            [(⟨rs.nextTacheId, i, t, st, p, d, none, none⟩ : TRow)]).map
          (fun r : TRow => (r.zone_id, r.titre))).Nodup
        rw [List.map_append, List.nodup_append]
        refine ⟨hD, by simp, ?_⟩
        intro a ha hb
        simp only [List.map_cons, List.map_nil, List.mem_singleton] at hb
        obtain ⟨r, hr, hra⟩ := List.mem_map.mp ha
        have hfalse : (r.zone_id == i && r.titre == t) = false := by
          rcases Bool.eq_false_or_eq_true (r.zone_id == i && r.titre == t) with hb2 | hb2
          · exact absurd (List.any_of_mem hr hb2) hc
          · exact hb2
        rw [← hra] at hb
        have h1 : r.zone_id = i := congrArg Prod.fst hb
        have h2 : r.titre = t := congrArg Prod.snd hb
        rw [h1, h2] at hfalse
        simp at hfalse
      · intro r hr
        rcases List.mem_append.mp hr with h1 | h1
        · exact hE r h1
        · simp only [List.mem_singleton] at h1
          unfold Db.zoneIdOf at hz
          obtain ⟨q, hq, hq1⟩ := Option.map_eq_some'.mp hz
          refine ⟨q, List.mem_of_find?_eq_some hq, ?_⟩
          rw [h1, hq1]
      · intro r hr
        rcases List.mem_append.mp hr with h1 | h1
        · exact hF r h1
        · simp only [List.mem_singleton] at h1
          rw [h1]
          exact ⟨by simp, by simp⟩

theorem RInv_step {s s' : RStore} (hstep : RStep s s') (hinv : RInv s) : RInv s' := by
  cases hstep with
  | update z t ns b h =>
    have h2 : s' = { s with taches := s.taches.map (fun r =>
        if Db.hits s z t r then { r with statut := ns } else r) } := by
      simp only [Db.update_task_status, Prod.mk.injEq] at h
      exact h.2.symm
    rw [h2]
    refine RInv_map ?_ ?_ ?_ hinv <;> intro r
    · by_cases hc : Db.hits s z t r = true <;> simp [hc]
    · by_cases hc : Db.hits s z t r = true <;> simp [hc]
    · intro hok
      by_cases hc : Db.hits s z t r = true <;> simp only [hc, if_pos, if_neg,
        Bool.false_eq_true, not_false_iff] <;> exact hok
  | sched z t st d? b h =>
    have key : ∀ dd : ℚ, ∀ bb : Bool, Db.scheduleWith s z t st dd = (bb, s') → RInv s' := by
      intro dd bb hsw
      have h2 : s' = { s with taches := s.taches.map (fun r =>
          if Db.hits s z t r then
            { r with date_debut := some st, date_fin := some (st + dd),
                     duree_estimee := dd } else r) } := by
        simp only [Db.scheduleWith, Prod.mk.injEq] at hsw
        exact hsw.2.symm
      rw [h2]
      refine RInv_map ?_ ?_ ?_ hinv <;> intro r
      · by_cases hc : Db.hits s z t r = true <;> simp [hc]
      · by_cases hc : Db.hits s z t r = true <;> simp [hc]
      · intro hok
        by_cases hc : Db.hits s z t r = true
        · simp only [hc, if_pos]
          refine ⟨by simp, ?_⟩
          intro a ha y hy
          simp only [Option.mem_def, Option.some.injEq] at ha hy
          rw [← ha, ← hy]
        · simp only [hc, Bool.false_eq_true, if_neg, not_false_iff]
          exact hok
    rcases d? with _ | dd
    · simp only [Db.schedule_task] at h
      rcases hf : s.taches.find? (Db.hits s z t) with _ | r₀
      · rw [hf] at h
        simp only [Prod.mk.injEq] at h
        rw [← h.2]
        exact hinv
      · rw [hf] at h
        exact key r₀.duree_estimee b h
    · exact key dd b h
  | unsched z t b h =>
    have h2 : s' = { s with taches := s.taches.map (fun r =>
        if Db.hits s z t r then { r with date_debut := none, date_fin := none }
        else r) } := by
      simp only [Db.unschedule_task, Prod.mk.injEq] at h
      exact h.2.symm
    rw [h2]
    refine RInv_map ?_ ?_ ?_ hinv <;> intro r
    · by_cases hc : Db.hits s z t r = true <;> simp [hc]
    · by_cases hc : Db.hits s z t r = true <;> simp [hc]
    · intro hok
      by_cases hc : Db.hits s z t r = true
      · simp only [hc, if_pos]
        exact ⟨by simp, by simp⟩
      · simp only [hc, Bool.false_eq_true, if_neg, not_false_iff]
        exact hok
  | add z t p d st b h =>
    exact RInv_add h hinv
  | del z t b h =>
    have h2 : s' =
        { s with taches := s.taches.filter (fun r => !(Db.hits s z t r)) } := by
      simp only [Db.delete_task, Prod.mk.injEq] at h
      exact h.2.symm
    rw [h2]
    obtain ⟨hA, hB, hC, hD, hE, hF⟩ := hinv
    have hsub : List.Sublist (s.taches.filter (fun r => !(Db.hits s z t r))) s.taches :=
      List.filter_sublist s.taches
    refine ⟨hA, hB, hC, ?_, ?_, ?_⟩
    · exact hD.sublist (hsub.map (fun r => (r.zone_id, r.titre)))
    · intro r hr
      exact hE r (hsub.subset hr)
    · intro r hr
      exact hF r (hsub.subset hr)
  | reset b h =>
    have h2 : s' = { s with taches := [] } := by
      simp only [Db.reset_to_empty, Prod.mk.injEq] at h
      exact h.2.symm
    rw [h2]
    obtain ⟨hA, hB, hC, _, _, _⟩ := hinv
    refine ⟨hA, hB, hC, by simp, ?_, ?_⟩ <;>
      · intro r hr
        simp at hr

theorem RReach_inv {s : RStore} (h : RReach s) : RInv s := by
  induction h with
  | init => exact RInv_init
  | step _ hstep ih => exact RInv_step hstep ih

theorem zoneIdOf_of_zoneNameOf {rs : RStore}
    (hA : (rs.zones.map (·.1)).Nodup) (hB : (rs.zones.map (·.2)).Nodup)
    {i : Nat} {z : String} (h : Db.zoneNameOf rs i = some z) :
    Db.zoneIdOf rs z = some i := by
  unfold Db.zoneNameOf at h
  obtain ⟨q, hq, hq2⟩ := Option.map_eq_some'.mp h
  have hq1 : q.1 = i := by simpa using List.find?_some hq
  have hqmem := List.mem_of_find?_eq_some hq
  have hmem' : (q.1, z) ∈ rs.zones := by
    rw [← hq2, Prod.mk.eta]
    exact hqmem
  have hfind := find?_snd_unique hB hmem'
  unfold Db.zoneIdOf
  rw [hfind]
  simp [hq1]

/-- Claim C5: in every reachable store state a task has an end date iff
it has a start date, in both backends; and after a successful
`unschedule_task (z, t)` the (z, t) task has neither date and no longer
appears in `get_scheduled_tasks`. -/
theorem claim_C5_both_dates_or_none :
    (∀ s : FStore, FReach s → ∀ q ∈ s, ∀ tk ∈ q.2,
        (tk.date_debut.isSome ↔ tk.date_fin.isSome)) ∧
    (∀ (s : FStore) (z t : String) (s' : FStore), FReach s →
        Data.unschedule_task s z t = some (true, s') →
        (∀ q ∈ s', q.1 = z → ∀ tk ∈ q.2, tk.titre = t →
          tk.date_debut = none ∧ tk.date_fin = none) ∧
        (∀ q ∈ Data.get_scheduled_tasks s', ¬(q.1 = z ∧ q.2.titre = t))) ∧
    (∀ rs : RStore, RReach rs → ∀ r ∈ rs.taches,
        (r.date_debut.isSome ↔ r.date_fin.isSome)) ∧
    (∀ (rs : RStore) (z t : String) (rs' : RStore), RReach rs →
        Db.unschedule_task rs z t = (true, rs') →
        (∀ r ∈ rs'.taches, Db.hits rs' z t r = true →
          r.date_debut = none ∧ r.date_fin = none) ∧
        (∀ q ∈ Db.get_scheduled_tasks rs', ¬(q.zone = z ∧ q.titre = t))) := by
  refine ⟨?_, ?_, ?_, ?_⟩
  · intro s hs q hq tk htk
    exact (((FReach_inv hs).2 q hq).2 tk htk).1
  · intro s z t s' hs h
    have hinv := FReach_inv hs
    simp only [Data.unschedule_task] at h
    rcases hl : lookupZone s z with _ | ts
    · simp only [hl] at h
      cases h
    · simp only [hl] at h
      rcases hu : updateFirst (fun x => x.titre == t)
          (fun x => { x with date_debut := none, date_fin := none }) ts with _ | ts'
      · rw [hu] at h
        simp at h
      · rw [hu] at h
        simp only [Option.some.injEq, Prod.mk.injEq, true_and] at h
        subst h
        obtain ⟨l₁, x, l₂, hts, hl₁, hx, hts'⟩ := updateFirst_eq_some hu
        obtain ⟨qe, hqe, hqe2⟩ := lookupZone_entry hl
        have hnod : (ts.map (·.titre)).Nodup := by
          have h5 := hinv.2 qe hqe
          rw [hqe2] at h5
          exact h5.1
        have hclear : ∀ tk ∈ ts', tk.titre = t →
            tk.date_debut = none ∧ tk.date_fin = none := by
          intro tk htk htt
          rw [hts'] at htk
          rcases List.mem_append.mp htk with h1 | h1
          · have h6 := hl₁ tk h1
            rw [htt] at h6
            simp at h6
          · rcases List.mem_cons.mp h1 with h2 | h2
            · rw [h2]
              exact ⟨rfl, rfl⟩
            · exfalso
              have hxt : x.titre = t := by simpa using hx
              rw [hts, List.map_append, List.map_cons] at hnod
              rcases List.nodup_append.mp hnod with ⟨_, hn2, _⟩
              rcases List.nodup_cons.mp hn2 with ⟨hxnot, _⟩
              exact hxnot (by
                rw [hxt, ← htt]
                exact List.mem_map.mpr ⟨tk, h2, rfl⟩)
        have hz2 : ∀ q ∈ setZone s z ts', q.1 = z → q.2 = ts' := by
          intro q hq hq1
          unfold setZone at hq
          obtain ⟨q₀, hq₀, hqeq⟩ := List.mem_map.mp hq
          by_cases hc : q₀.1 = z
          · rw [if_pos (by simpa using hc)] at hqeq
            rw [← hqeq]
          · rw [if_neg (by simpa using hc)] at hqeq
            rw [← hqeq] at hq1
            exact absurd hq1 hc
        constructor
        · intro q hq hq1 tk htk htt
          have h7 := hz2 q hq hq1
          rw [h7] at htk
          exact hclear tk htk htt
        · rintro q hq ⟨hqz, hqt⟩
          unfold Data.get_scheduled_tasks at hq
          obtain ⟨p, hp, hqp⟩ := List.mem_flatMap.mp hq
          obtain ⟨tk, htkf, hqeq⟩ := List.mem_map.mp hqp
          rcases List.mem_filter.mp htkf with ⟨htkm, htkb⟩
          have hp1 : p.1 = z := by
            rw [← hqeq] at hqz
            exact hqz
          have htt : tk.titre = t := by
            rw [← hqeq] at hqt
            exact hqt
          have hq2 := hz2 p hp hp1
          rw [hq2] at htkm
          obtain ⟨hd, _⟩ := hclear tk htkm htt
          rw [hd] at htkb
          simp at htkb
  · intro rs hrs r hr
    exact ((RReach_inv hrs).2.2.2.2.2 r hr).1
  · intro rs z t rs' hrs h
    have hinv := RReach_inv hrs
    simp only [Db.unschedule_task, Prod.mk.injEq] at h
    have h2 : rs' = { rs with taches := rs.taches.map (fun r =>
        if Db.hits rs z t r then { r with date_debut := none, date_fin := none }
        else r) } := h.2.symm
    subst h2
    have hclear : ∀ r ∈ rs.taches.map (fun r =>
        if Db.hits rs z t r then { r with date_debut := none, date_fin := none }
        else r), Db.hits rs z t r = true →
        r.date_debut = none ∧ r.date_fin = none := by
      intro r hr hhit
      obtain ⟨r₀, hr₀, hre⟩ := List.mem_map.mp hr
      by_cases hc : Db.hits rs z t r₀ = true
      · rw [if_pos hc] at hre
        rw [← hre]
        exact ⟨rfl, rfl⟩
      · rw [if_neg hc] at hre
        rw [← hre] at hhit
        exact absurd hhit hc
    constructor
    · intro r hr hhit
      exact hclear r hr hhit
    · rintro q hq ⟨hqz, hqt⟩
      unfold Db.get_scheduled_tasks at hq
      obtain ⟨r, hrf, hjoin⟩ := List.mem_filterMap.mp hq
      rcases List.mem_filter.mp hrf with ⟨hrm, hrb⟩
      unfold Db.joinRow at hjoin
      obtain ⟨zn, hzn, hqe⟩ := Option.map_eq_some'.mp hjoin
      have hznz : zn = z := by
        rw [← hqe] at hqz
        exact hqz
      have hzq : Db.zoneNameOf rs r.zone_id = some z := by
        have hzn' : Db.zoneNameOf rs r.zone_id = some zn := hzn
        rw [hznz] at hzn'
        exact hzn'
      have htr : r.titre = t := by
        rw [← hqe] at hqt
        exact hqt
      obtain ⟨hA, hB, _, _, _, _⟩ := hinv
      have hidz := zoneIdOf_of_zoneNameOf hA hB hzq
      have hhit : Db.hits rs z t r = true := by
        unfold Db.hits
        rw [hidz, htr]
        simp
      obtain ⟨hd, _⟩ := hclear r hrm hhit
      rw [hd] at hrb
      simp at hrb

/-- Witness for claim C5: concrete reachable stores in both backends (add
then schedule from the defaults), then an unschedule call. -/
theorem claim_C5_both_dates_witness :
    (∀ q ∈ Data.EMPTY_TRAVAUX, ∀ tk ∈ q.2,
        (tk.date_debut.isSome ↔ tk.date_fin.isSome)) ∧
    ((∀ q ∈ ((Data.unschedule_task exS2 "Cuisine" "T").getD (false, [])).2,
        q.1 = "Cuisine" → ∀ tk ∈ q.2, tk.titre = "T" →
          tk.date_debut = none ∧ tk.date_fin = none) ∧
      (∀ q ∈ Data.get_scheduled_tasks
          ((Data.unschedule_task exS2 "Cuisine" "T").getD (false, [])).2,
        ¬(q.1 = "Cuisine" ∧ q.2.titre = "T"))) ∧
    (∀ r ∈ Db.init_store.taches, (r.date_debut.isSome ↔ r.date_fin.isSome)) ∧
    ((∀ r ∈ (Db.unschedule_task exR2 "Cuisine" "T").2.taches,
        Db.hits (Db.unschedule_task exR2 "Cuisine" "T").2 "Cuisine" "T" r = true →
          r.date_debut = none ∧ r.date_fin = none) ∧
      (∀ q ∈ Db.get_scheduled_tasks (Db.unschedule_task exR2 "Cuisine" "T").2,
        ¬(q.zone = "Cuisine" ∧ q.titre = "T"))) := by
  have h1 : FReach exS1 :=
    FReach.step FReach.init (FStep.add "Cuisine" "T" "Moyenne" 1 "À faire" true rfl)
  have h2 : FReach exS2 :=
    FReach.step h1 (FStep.sched "Cuisine" "T" 0 none true rfl)
  have h3 : RReach exR1 :=
    RReach.step RReach.init (RStep.add "Cuisine" "T" "Moyenne" 1 "À faire" true rfl)
  have h4 : RReach exR2 :=
    RReach.step h3 (RStep.sched "Cuisine" "T" 0 none true rfl)
  exact ⟨claim_C5_both_dates_or_none.1 Data.EMPTY_TRAVAUX FReach.init,
         claim_C5_both_dates_or_none.2.1 exS2 "Cuisine" "T" _ h2 rfl,
         claim_C5_both_dates_or_none.2.2.1 Db.init_store RReach.init,
         claim_C5_both_dates_or_none.2.2.2 exR2 "Cuisine" "T" _ h4 rfl⟩

theorem forall₂_mem_right {α β : Type} {R : α → β → Prop} {l₁ : List α} {l₂ : List β}
    (h : List.Forall₂ R l₁ l₂) {b : β} (hb : b ∈ l₂) : ∃ a ∈ l₁, R a b := by
  induction h with
  | nil => cases hb
  | cons hr hrest ih =>
    rcases List.mem_cons.mp hb with h1 | h1
    · exact ⟨_, List.mem_cons_self _ _, by rw [h1]; exact hr⟩
    · obtain ⟨a, ha, har⟩ := ih h1
      exact ⟨a, List.mem_cons_of_mem _ ha, har⟩

theorem forall₂_append {α β : Type} {R : α → β → Prop} {l₁ l₃ : List α} {l₂ l₄ : List β}
    (h : List.Forall₂ R l₁ l₂) (h' : List.Forall₂ R l₃ l₄) :
    List.Forall₂ R (l₁ ++ l₃) (l₂ ++ l₄) := by
  induction h with
  | nil => exact h'
  | cons hr hrest ih => exact List.Forall₂.cons hr ih

theorem find?_append_of_some {α : Type} {p : α → Bool} {l l' : List α} {x : α}
    (h : l.find? p = some x) : (l ++ l').find? p = some x := by
  rw [List.find?_append, h]
  rfl

theorem find?_append_of_none {α : Type} {p : α → Bool} {l l' : List α}
    (h : l.find? p = none) : (l ++ l').find? p = l'.find? p := by
  rw [List.find?_append, h]
  simp

theorem zoneNameOf_of_zoneIdOf {rs : RStore} (hA : (rs.zones.map (·.1)).Nodup)
    {z : String} {i : Nat} (h : Db.zoneIdOf rs z = some i) :
    Db.zoneNameOf rs i = some z := by
  unfold Db.zoneIdOf at h
  obtain ⟨q, hq, hq1⟩ := Option.map_eq_some'.mp h
  have hq2 : q.2 = z := by simpa using List.find?_some hq
  have hmem := List.mem_of_find?_eq_some hq
  have hmem' : (i, z) ∈ rs.zones := by
    have hqe : q = (i, z) := by
      rcases q with ⟨qa, qb⟩
      simp only at hq1 hq2
      rw [hq1, hq2]
    rw [← hqe]
    exact hmem
  have hfind := find?_fst_unique hA hmem'
  unfold Db.zoneNameOf
  rw [hfind]
  rfl

theorem RowMatches_mono {rs rs' : RStore}
    (hz : ∀ (i : Nat) (s : String), Db.zoneNameOf rs i = some s →
      Db.zoneNameOf rs' i = some s)
    {q : String × Tache} {r : TRow} (h : RowMatches rs q r) : RowMatches rs' q r :=
  ⟨hz _ _ h.1, h.2.1, h.2.2.1, h.2.2.2.1, h.2.2.2.2.1, h.2.2.2.2.2.1, h.2.2.2.2.2.2⟩

theorem map_if_not_hit {β : Type} (p : β → Bool) (f : β → β) (l : List β)
    (h : ∀ r ∈ l, p r = false) : l.map (fun r => if p r then f r else r) = l := by
  induction l with
  | nil => rfl
  | cons x xs ih =>
    have hx : p x = false := h x (by simp)
    have ihx := ih (fun r hr => h r (by simp [hr]))
    simp [hx, ihx]

theorem migrateTache_post {rs₁ : RStore} {done : List (String × Tache)} {z : String}
    {tk : Tache} {i tid : Nat} {rows₀ : List TRow}
    (hA : (rs₁.zones.map (·.1)).Nodup)
    (hB : (rs₁.zones.map (·.2)).Nodup)
    (hC : ∀ q ∈ rs₁.zones, q.1 < rs₁.nextZoneId)
    (hrows : List.Forall₂ (RowMatches rs₁) done rows₀)
    (htq : rs₁.taches = rows₀ ++
      [⟨tid, i, tk.titre, tk.statut, tk.priorite, tk.duree_estimee, none, none⟩])
    (hzi : Db.zoneIdOf rs₁ z = some i)
    (hzn : Db.zoneNameOf rs₁ i = some z)
    (hnew : ∀ q ∈ done, ¬(q.1 = z ∧ q.2.titre = tk.titre))
    (hok : TacheOk tk) :
    MigInv (done ++ [(z, tk)])
      (match tk.date_debut, tk.date_fin with
       | some st, some _ => (Db.schedule_task rs₁ z tk.titre st (some tk.duree_estimee)).2
       | _, _ => rs₁) := by
  have hold : ∀ r ∈ rows₀, Db.hits rs₁ z tk.titre r = false := by
    intro r hr
    rcases Bool.eq_false_or_eq_true (Db.hits rs₁ z tk.titre r) with hb | hb
    · exfalso
      obtain ⟨qd, hqd, hR⟩ := forall₂_mem_right hrows hr
      unfold Db.hits at hb
      rw [hzi] at hb
      simp only [Bool.and_eq_true] at hb
      have h1 : r.titre = tk.titre := by
        have := hb.1
        simpa using this
      have h2 : i = r.zone_id := by
        have := hb.2
        simpa using this
      have h3 : qd.1 = z := by
        have h4 := hR.1
        rw [← h2, hzn] at h4
        exact (Option.some.inj h4).symm
      have h5 : qd.2.titre = tk.titre := hR.2.1.symm.trans h1
      exact hnew qd hqd ⟨h3, h5⟩
    · exact hb
  rcases hd : tk.date_debut with _ | st
  · have hf : tk.date_fin = none := by
      rcases hfe : tk.date_fin with _ | y
      · rfl
      · exfalso
        have h6 := hok.1.mpr (by rw [hfe]; rfl)
        rw [hd] at h6
        simp at h6
    rw [hf]
    show MigInv (done ++ [(z, tk)]) rs₁
    refine ⟨hA, hB, hC, ?_⟩
    rw [htq]
    refine forall₂_append hrows (List.Forall₂.cons ?_ List.Forall₂.nil)
    exact ⟨hzn, rfl, rfl, rfl, rfl, hd.symm, hf.symm⟩
  · rcases hfe : tk.date_fin with _ | fin₀
    · exfalso
      have h6 := hok.1.mp (by rw [hd]; rfl)
      rw [hfe] at h6
      simp at h6
    · have hfin : fin₀ = st + tk.duree_estimee :=
        hok.2 st (by rw [hd]; rfl) fin₀ (by rw [hfe]; rfl)
      show MigInv (done ++ [(z, tk)]) (Db.scheduleWith rs₁ z tk.titre st tk.duree_estimee).2
      have hrowhit : Db.hits rs₁ z tk.titre
          ⟨tid, i, tk.titre, tk.statut, tk.priorite, tk.duree_estimee, none, none⟩ = true := by
        unfold Db.hits
        rw [hzi]
        simp
      have hmap : rs₁.taches.map (fun r => if Db.hits rs₁ z tk.titre r then
          { r with date_debut := some st, date_fin := some (st + tk.duree_estimee),
                   duree_estimee := tk.duree_estimee } else r) =
          rows₀ ++ [⟨tid, i, tk.titre, tk.statut, tk.priorite, tk.duree_estimee,
            some st, some (st + tk.duree_estimee)⟩] := by
        rw [htq, List.map_append]
        rw [map_if_not_hit _ _ _ hold]
        rw [List.map_cons, List.map_nil, if_pos hrowhit]
      refine ⟨hA, hB, hC, ?_⟩
      show List.Forall₂ (RowMatches (Db.scheduleWith rs₁ z tk.titre st tk.duree_estimee).2)
        (done ++ [(z, tk)]) (Db.scheduleWith rs₁ z tk.titre st tk.duree_estimee).2.taches
      have hsched : (Db.scheduleWith rs₁ z tk.titre st tk.duree_estimee).2.taches =
          rows₀ ++ [⟨tid, i, tk.titre, tk.statut, tk.priorite, tk.duree_estimee,
            some st, some (st + tk.duree_estimee)⟩] := hmap
      rw [hsched]
      refine forall₂_append ?_ (List.Forall₂.cons ?_ List.Forall₂.nil)
      · exact hrows
      · refine ⟨hzn, rfl, rfl, rfl, rfl, hd.symm, ?_⟩
        rw [hfe, hfin]

theorem migrateTache_inv {rs : RStore} {done : List (String × Tache)} {z : String}
    {tk : Tache} (hinv : MigInv done rs)
    (hnew : ∀ q ∈ done, ¬(q.1 = z ∧ q.2.titre = tk.titre))
    (hok : TacheOk tk) :
    MigInv (done ++ [(z, tk)]) (Db.migrateTache z tk rs) := by
  obtain ⟨hA, hB, hC, hrows⟩ := hinv
  unfold Db.migrateTache
  rcases hz : Db.zoneIdOf rs z with _ | i
  · have hnohit : ∀ r ∈ rs.taches,
        (r.zone_id == rs.nextZoneId && r.titre == tk.titre) = false := by
      intro r hr
      rcases Bool.eq_false_or_eq_true
          (r.zone_id == rs.nextZoneId && r.titre == tk.titre) with hb | hb
      · exfalso
        simp only [Bool.and_eq_true] at hb
        have h1 : r.zone_id = rs.nextZoneId := by simpa using hb.1
        obtain ⟨qd, hqd, hR⟩ := forall₂_mem_right hrows hr
        have h4 := hR.1
        unfold Db.zoneNameOf at h4
        obtain ⟨q, hq, _⟩ := Option.map_eq_some'.mp h4
        have hqi : q.1 = r.zone_id := by simpa using List.find?_some hq
        have := hC q (List.mem_of_find?_eq_some hq)
        omega
      · exact hb
    have hany : rs.taches.any
        (fun r => r.zone_id == rs.nextZoneId && r.titre == tk.titre) = false := by
      rcases Bool.eq_false_or_eq_true (rs.taches.any
          (fun r => r.zone_id == rs.nextZoneId && r.titre == tk.titre)) with hb | hb
      · exfalso
        obtain ⟨r, hr, hpr⟩ := List.any_eq_true.mp hb
        rw [hnohit r hr] at hpr
        cases hpr
      · exact hb
    have hadd : Db.add_task rs z tk.titre tk.priorite tk.duree_estimee tk.statut =
        (true, { rs with
          zones := rs.zones ++ [(rs.nextZoneId, z)],
          nextZoneId := rs.nextZoneId + 1,
          taches := rs.taches ++ [⟨rs.nextTacheId, rs.nextZoneId, tk.titre, tk.statut,
            tk.priorite, tk.duree_estimee, none, none⟩],
          nextTacheId := rs.nextTacheId + 1 }) := by
      simp only [Db.add_task, hz]
      rw [if_neg (by rw [hany]; simp)]
    simp only [hadd]
    refine migrateTache_post ?_ ?_ ?_ ?_ rfl ?_ ?_ hnew hok
    · show ((rs.zones ++ [(rs.nextZoneId, z)]).map (·.1)).Nodup
      rw [List.map_append, List.nodup_append]
      refine ⟨hA, by simp, ?_⟩
      intro a ha hb
      simp only [List.map_cons, List.map_nil, List.mem_singleton] at hb
      obtain ⟨q, hq, hq1⟩ := List.mem_map.mp ha
      have := hC q hq
      omega
    · show ((rs.zones ++ [(rs.nextZoneId, z)]).map (·.2)).Nodup
      rw [List.map_append, List.nodup_append]
      refine ⟨hB, by simp, ?_⟩
      intro a ha hb
      simp only [List.map_cons, List.map_nil, List.mem_singleton] at hb
      obtain ⟨q, hq, hq2⟩ := List.mem_map.mp ha
      have hfn : rs.zones.find? (fun q => q.2 == z) = none := Option.map_eq_none'.mp hz
      have := List.find?_eq_none.mp hfn q hq
      rw [hq2, hb] at this
      simp at this
    · intro q hq
      show q.1 < rs.nextZoneId + 1
      rcases List.mem_append.mp hq with h1 | h1
      · have := hC q h1
        omega
      · simp only [List.mem_singleton] at h1
        rw [h1]
        omega
    · refine List.Forall₂.imp ?_ hrows
      intro a b hab
      refine RowMatches_mono ?_ hab
      intro j s hjs
      unfold Db.zoneNameOf at hjs ⊢
      obtain ⟨q, hq, hq2⟩ := Option.map_eq_some'.mp hjs
      show ((rs.zones ++ [(rs.nextZoneId, z)]).find? (fun p => p.1 == j)).map (·.2) = some s
      rw [find?_append_of_some hq]
      simp [hq2]
    · show Db.zoneIdOf { rs with
          zones := rs.zones ++ [(rs.nextZoneId, z)],
          nextZoneId := rs.nextZoneId + 1,
          taches := rs.taches ++ [⟨rs.nextTacheId, rs.nextZoneId, tk.titre, tk.statut,
            tk.priorite, tk.duree_estimee, none, none⟩],
          nextTacheId := rs.nextTacheId + 1 } z = some rs.nextZoneId
      unfold Db.zoneIdOf
      have hfn : rs.zones.find? (fun q => q.2 == z) = none := Option.map_eq_none'.mp hz
      show ((rs.zones ++ [(rs.nextZoneId, z)]).find? (fun p => p.2 == z)).map (·.1) =
        some rs.nextZoneId
      rw [find?_append_of_none hfn, List.find?_cons_of_pos _ (by simp)]
      rfl
    · show Db.zoneNameOf { rs with
          zones := rs.zones ++ [(rs.nextZoneId, z)],
          nextZoneId := rs.nextZoneId + 1,
          taches := rs.taches ++ [⟨rs.nextTacheId, rs.nextZoneId, tk.titre, tk.statut,
            tk.priorite, tk.duree_estimee, none, none⟩],
          nextTacheId := rs.nextTacheId + 1 } rs.nextZoneId = some z
      unfold Db.zoneNameOf
      have hfn : rs.zones.find? (fun q => q.1 == rs.nextZoneId) = none := by
        rw [List.find?_eq_none]
        intro q hq hbe
        have h5 := hC q hq
        have h6 : q.1 = rs.nextZoneId := by simpa using hbe
        omega
      show ((rs.zones ++ [(rs.nextZoneId, z)]).find? (fun p => p.1 == rs.nextZoneId)).map
        (·.2) = some z
      rw [find?_append_of_none hfn, List.find?_cons_of_pos _ (by simp)]
      rfl
  · have hzn₀ : Db.zoneNameOf rs i = some z := zoneNameOf_of_zoneIdOf hA hz
    have hnohit : ∀ r ∈ rs.taches, (r.zone_id == i && r.titre == tk.titre) = false := by
      intro r hr
      rcases Bool.eq_false_or_eq_true (r.zone_id == i && r.titre == tk.titre) with hb | hb
      · exfalso
        simp only [Bool.and_eq_true] at hb
        have h1 : r.zone_id = i := by simpa using hb.1
        have h2 : r.titre = tk.titre := by simpa using hb.2
        obtain ⟨qd, hqd, hR⟩ := forall₂_mem_right hrows hr
        have h3 : qd.1 = z := by
          have h4 := hR.1
          rw [h1, hzn₀] at h4
          exact (Option.some.inj h4).symm
        have h5 : qd.2.titre = tk.titre := hR.2.1.symm.trans h2
        exact hnew qd hqd ⟨h3, h5⟩
      · exact hb
    have hany : rs.taches.any (fun r => r.zone_id == i && r.titre == tk.titre) = false := by
      rcases Bool.eq_false_or_eq_true
          (rs.taches.any (fun r => r.zone_id == i && r.titre == tk.titre)) with hb | hb
      · exfalso
        obtain ⟨r, hr, hpr⟩ := List.any_eq_true.mp hb
        rw [hnohit r hr] at hpr
        cases hpr
      · exact hb
    have hadd : Db.add_task rs z tk.titre tk.priorite tk.duree_estimee tk.statut =
        (true, { rs with
          taches := rs.taches ++ [⟨rs.nextTacheId, i, tk.titre, tk.statut,
            tk.priorite, tk.duree_estimee, none, none⟩],
          nextTacheId := rs.nextTacheId + 1 }) := by
      simp only [Db.add_task, hz]
      rw [if_neg (by rw [hany]; simp)]
    simp only [hadd]
    exact migrateTache_post hA hB hC hrows rfl hz hzn₀ hnew hok

theorem migrateZone_inv {z : String} (ts : List Tache) :
    ∀ (done : List (String × Tache)) (rs : RStore),
    MigInv done rs → (∀ tk ∈ ts, TacheOk tk) →
    (∀ tk ∈ ts, ∀ q ∈ done, ¬(q.1 = z ∧ q.2.titre = tk.titre)) →
    (ts.map (·.titre)).Nodup →
    MigInv (done ++ ts.map (fun tk => (z, tk))) (Db.migrateZone z ts rs) := by
  induction ts with
  | nil =>
    intro done rs hinv _ _ _
    simpa using hinv
  | cons tk ts ih =>
    intro done rs hinv hok hfresh hnod
    rw [List.map_cons, List.nodup_cons] at hnod
    have hstep := migrateTache_inv hinv (hfresh tk (by simp)) (hok tk (by simp))
    have hfresh' : ∀ tk' ∈ ts, ∀ q ∈ done ++ [(z, tk)],
        ¬(q.1 = z ∧ q.2.titre = tk'.titre) := by
      intro tk' ht' q hq
      rcases List.mem_append.mp hq with h1 | h1
      · exact hfresh tk' (by simp [ht']) q h1
      · simp only [List.mem_singleton] at h1
        rw [h1]
        rintro ⟨_, h2⟩
        exact hnod.1 (by rw [h2]; exact List.mem_map.mpr ⟨tk', ht', rfl⟩)
    have hres := ih (done ++ [(z, tk)]) (Db.migrateTache z tk rs) hstep
      (fun tk' h => hok tk' (by simp [h])) hfresh' hnod.2
    show MigInv (done ++ (tk :: ts).map (fun tk => (z, tk)))
      (Db.migrateZone z ts (Db.migrateTache z tk rs))
    rw [List.map_cons, show done ++ (z, tk) :: ts.map (fun tk => (z, tk)) =
        (done ++ [(z, tk)]) ++ ts.map (fun tk => (z, tk)) from by simp]
    exact hres

theorem migrateZones_inv (json : FStore) :
    ∀ (done : List (String × Tache)) (rs : RStore),
    MigInv done rs →
    (∀ p ∈ json, (p.2.map (·.titre)).Nodup ∧ ∀ tk ∈ p.2, TacheOk tk) →
    (∀ p ∈ json, ∀ q ∈ done, q.1 ≠ p.1) →
    (json.map (·.1)).Nodup →
    MigInv (done ++ Data.get_all_tasks json) (Db.migrateZones json rs) := by
  induction json with
  | nil =>
    intro done rs hinv _ _ _
    simpa [Data.get_all_tasks] using hinv
  | cons p rest ih =>
    intro done rs hinv hzok hfresh hnod
    obtain ⟨z, ts⟩ := p
    rw [List.map_cons, List.nodup_cons] at hnod
    have hfz : ∀ tk ∈ ts, ∀ q ∈ done, ¬(q.1 = z ∧ q.2.titre = tk.titre) := by
      intro tk _ q hq
      rintro ⟨he, _⟩
      exact hfresh (z, ts) (by simp) q hq he
    have h1 := migrateZone_inv ts done rs hinv (hzok (z, ts) (by simp)).2 hfz
      (hzok (z, ts) (by simp)).1
    have hfr : ∀ p' ∈ rest, ∀ q ∈ done ++ ts.map (fun tk => (z, tk)), q.1 ≠ p'.1 := by
      intro p' hp' q hq
      rcases List.mem_append.mp hq with hq1 | hq1
      · exact hfresh p' (by simp [hp']) q hq1
      · obtain ⟨tk, _, hqe⟩ := List.mem_map.mp hq1
        rw [← hqe]
        intro hne
        exact hnod.1 (by rw [hne]; exact List.mem_map.mpr ⟨p', hp', rfl⟩)
    have h2 := ih (done ++ ts.map (fun tk => (z, tk))) (Db.migrateZone z ts rs) h1
      (fun q h => hzok q (by simp [h])) hfr hnod.2
    show MigInv (done ++ Data.get_all_tasks ((z, ts) :: rest))
      (Db.migrateZones rest (Db.migrateZone z ts rs))
    have hgetall : Data.get_all_tasks ((z, ts) :: rest) =
        ts.map (fun tk => (z, tk)) ++ Data.get_all_tasks rest := by
      unfold Data.get_all_tasks
      rw [List.flatMap_cons]
    rw [hgetall, show done ++ (ts.map (fun tk => (z, tk)) ++ Data.get_all_tasks rest) =
        (done ++ ts.map (fun tk => (z, tk))) ++ Data.get_all_tasks rest from
      by rw [List.append_assoc]]
    exact h2

theorem getall_aux {rs : RStore} {done : List (String × Tache)} {rows : List TRow}
    (h : List.Forall₂ (RowMatches rs) done rows) :
    (rows.filterMap (Db.joinRow rs)).map fieldsOfJ =
      done.map (fun q => fieldsOfT q.1 q.2) := by
  induction h with
  | nil => rfl
  | @cons a b l₁ l₂ hr hrest ih =>
    obtain ⟨hzn, ht, hst, hp, hdur, hdb, hdf⟩ := hr
    rw [List.filterMap_cons]
    have hj : Db.joinRow rs b = some
        ⟨a.1, b.titre, b.statut, b.priorite, b.duree_estimee, b.date_debut, b.date_fin⟩ := by
      unfold Db.joinRow
      rw [hzn]
      rfl
    rw [hj, List.map_cons, List.map_cons, ih]
    congr 1
    unfold fieldsOfJ fieldsOfT
    simp [ht, hst, hp, hdur]

theorem getsched_aux {rs : RStore} {done : List (String × Tache)} {rows : List TRow}
    (h : List.Forall₂ (RowMatches rs) done rows) :
    ((rows.filter (fun r => r.date_debut.isSome && r.date_fin.isSome)).filterMap
        (Db.joinRow rs)).map schedOfJ =
      (done.filter (fun q => q.2.date_debut.isSome && q.2.date_fin.isSome)).map
        (fun q => schedOfT q.1 q.2) := by
  induction h with
  | nil => rfl
  | @cons a b l₁ l₂ hr hrest ih =>
    obtain ⟨hzn, ht, hst, hp, hdur, hdb, hdf⟩ := hr
    rw [List.filter_cons, List.filter_cons]
    have hcond : (b.date_debut.isSome && b.date_fin.isSome) =
        (a.2.date_debut.isSome && a.2.date_fin.isSome) := by
      rw [hdb, hdf]
    rw [hcond]
    by_cases hc : (a.2.date_debut.isSome && a.2.date_fin.isSome) = true
    · rw [if_pos hc, if_pos hc, List.filterMap_cons]
      have hj : Db.joinRow rs b = some
          ⟨a.1, b.titre, b.statut, b.priorite, b.duree_estimee, b.date_debut, b.date_fin⟩ := by
        unfold Db.joinRow
        rw [hzn]
        rfl
      rw [hj, List.map_cons, List.map_cons, ih]
      congr 1
      unfold schedOfJ schedOfT
      simp [ht, hdb, hdf]
    · rw [if_neg hc, if_neg hc]
      exact ih

theorem get_scheduled_eq_filter (s : FStore) :
    Data.get_scheduled_tasks s = (Data.get_all_tasks s).filter
      (fun q => q.2.date_debut.isSome && q.2.date_fin.isSome) := by
  unfold Data.get_scheduled_tasks Data.get_all_tasks
  induction s with
  | nil => rfl
  | cons p rest ih =>
    rw [List.flatMap_cons, List.flatMap_cons, List.filter_append, ih]
    congr 1
    rw [List.filter_map]
    rfl

/-- Claim C6: migrating a well-formed file store (unique zones, unique
titles per zone, consistent scheduling dates) into a well-formed
relational store transfers every one of the N tasks with identical zone,
title, status, priority and duration, and exactly the K scheduled tasks
keep their exact start and end dates (the recomputed end `start +
duration` coincides with the stored end). -/
theorem claim_C6_migrate_from_json :
    ∀ (json : FStore) (rs : RStore), FInv json → RInv rs →
    ∃ rs', Db.migrate_from_json (some json) rs = (true, rs') ∧
      (Db.get_all_tasks rs').map fieldsOfJ =
        (Data.get_all_tasks json).map (fun q => fieldsOfT q.1 q.2) ∧
      (Db.get_scheduled_tasks rs').map schedOfJ =
        (Data.get_scheduled_tasks json).map (fun q => schedOfT q.1 q.2) ∧
      (Db.get_all_tasks rs').length = (Data.get_all_tasks json).length ∧
      (Db.get_scheduled_tasks rs').length = (Data.get_scheduled_tasks json).length := by
  intro json rs hF hR
  obtain ⟨hA, hB, hC, _, _, _⟩ := hR
  have hinv0 : MigInv [] (Db.reset_to_empty rs).2 := ⟨hA, hB, hC, List.Forall₂.nil⟩
  have hmain := migrateZones_inv json [] (Db.reset_to_empty rs).2 hinv0
    (fun p hp => (hF.2 p hp))
    (fun p _ q hq => absurd hq (List.not_mem_nil q))
    hF.1
  rw [List.nil_append] at hmain
  obtain ⟨_, _, _, hrows⟩ := hmain
  refine ⟨Db.migrateZones json (Db.reset_to_empty rs).2, rfl, ?_, ?_, ?_, ?_⟩
  · exact getall_aux hrows
  · rw [get_scheduled_eq_filter]
    exact getsched_aux hrows
  · have h1 := congrArg List.length (getall_aux hrows)
    rwa [List.length_map, List.length_map] at h1
  · have h1 := congrArg List.length (getsched_aux hrows)
    rw [List.length_map, List.length_map] at h1
    rw [get_scheduled_eq_filter json]
    exact h1

/-- Witness for claim C6: migration of a concrete three-zone file store
(two scheduled tasks among three) into the freshly initialised database. -/
theorem claim_C6_migrate_witness :
    ∃ rs', Db.migrate_from_json (some exJson) Db.init_store = (true, rs') ∧
      (Db.get_all_tasks rs').map fieldsOfJ =
        (Data.get_all_tasks exJson).map (fun q => fieldsOfT q.1 q.2) ∧
      (Db.get_scheduled_tasks rs').map schedOfJ =
        (Data.get_scheduled_tasks exJson).map (fun q => schedOfT q.1 q.2) ∧
      (Db.get_all_tasks rs').length = (Data.get_all_tasks exJson).length ∧
      (Db.get_scheduled_tasks rs').length = (Data.get_scheduled_tasks exJson).length := by
  have hF : FInv exJson := by
    constructor
    · decide
    · intro p hp
      simp only [exJson, List.mem_cons, List.not_mem_nil, or_false] at hp
      rcases hp with rfl | rfl | rfl
      · exact ⟨by decide, fun tk htk => absurd htk (List.not_mem_nil tk)⟩
      · refine ⟨by decide, ?_⟩
        intro tk htk
        simp only [List.mem_cons, List.not_mem_nil, or_false] at htk
        rcases htk with rfl | rfl
        · exact ⟨by simp, by intro a ha; simp at ha⟩
        · refine ⟨by simp, ?_⟩
          intro a ha b hb
          simp at ha hb
          subst ha
          subst hb
          norm_num
      · refine ⟨by decide, ?_⟩
        intro tk htk
        simp only [List.mem_cons, List.not_mem_nil, or_false] at htk
        rcases htk with rfl
        refine ⟨by simp, ?_⟩
        intro a ha b hb
        simp at ha hb
        subst ha
        subst hb
        norm_num
  exact claim_C6_migrate_from_json exJson Db.init_store hF RInv_init

theorem digitChar_isDigit (n : Nat) : (digitChar n).isDigit = true := by
  unfold digitChar
  have h : n % 10 = 0 ∨ n % 10 = 1 ∨ n % 10 = 2 ∨ n % 10 = 3 ∨ n % 10 = 4 ∨
      n % 10 = 5 ∨ n % 10 = 6 ∨ n % 10 = 7 ∨ n % 10 = 8 ∨ n % 10 = 9 := by omega
  rcases h with h | h | h | h | h | h | h | h | h | h <;> rw [h] <;> decide

theorem digitVal_digitChar (n : Nat) : digitVal (digitChar n) = n % 10 := by
  unfold digitChar digitVal
  have h : n % 10 = 0 ∨ n % 10 = 1 ∨ n % 10 = 2 ∨ n % 10 = 3 ∨ n % 10 = 4 ∨
      n % 10 = 5 ∨ n % 10 = 6 ∨ n % 10 = 7 ∨ n % 10 = 8 ∨ n % 10 = 9 := by omega
  rcases h with h | h | h | h | h | h | h | h | h | h <;> rw [h] <;> decide

theorem parse2 (n : Nat) (h : n < 100) :
    digitVal (digitChar (n / 10)) * 10 + digitVal (digitChar n) = n := by
  rw [digitVal_digitChar, digitVal_digitChar]
  omega

theorem parse4 (n : Nat) (h : n < 10000) :
    digitVal (digitChar (n / 1000)) * 1000 + digitVal (digitChar (n / 100)) * 100 +
      digitVal (digitChar (n / 10)) * 10 + digitVal (digitChar n) = n := by
  rw [digitVal_digitChar, digitVal_digitChar, digitVal_digitChar, digitVal_digitChar]
  omega

theorem parse6 (n : Nat) (h : n < 1000000) :
    digitVal (digitChar (n / 100000)) * 100000 + digitVal (digitChar (n / 10000)) * 10000 +
      digitVal (digitChar (n / 1000)) * 1000 + digitVal (digitChar (n / 100)) * 100 +
      digitVal (digitChar (n / 10)) * 10 + digitVal (digitChar n) = n := by
  rw [digitVal_digitChar, digitVal_digitChar, digitVal_digitChar, digitVal_digitChar,
    digitVal_digitChar, digitVal_digitChar]
  omega

theorem fromisoformat_isoformat (d : DateTime) (h : ValidDT d) :
    fromisoformat (isoformat d) = some d := by
  obtain ⟨y, mo, da, hh, mi, se, ms⟩ := d
  unfold ValidDT at h
  dsimp only at h
  obtain ⟨h1, h2, h3, h4, h5, h6, h7, h8, h9, h10⟩ := h
  unfold isoformat fromisoformat
  simp only [pad4, pad2, pad6, List.cons_append, List.nil_append]
  by_cases hm : ms = 0
  · simp only [hm, if_pos]
    rw [if_pos ⟨trivial, trivial, trivial, trivial, trivial,
      digitChar_isDigit _, digitChar_isDigit _, digitChar_isDigit _, digitChar_isDigit _,
      digitChar_isDigit _, digitChar_isDigit _, digitChar_isDigit _, digitChar_isDigit _,
      digitChar_isDigit _, digitChar_isDigit _, digitChar_isDigit _, digitChar_isDigit _,
      digitChar_isDigit _, digitChar_isDigit _⟩]
    simp only [Option.some.injEq, DateTime.mk.injEq]
    exact ⟨parse4 _ (by omega), parse2 _ (by omega), parse2 _ (by omega),
      parse2 _ (by omega), parse2 _ (by omega), parse2 _ (by omega), trivial⟩
  · simp only [hm, if_neg, not_false_iff]
    rw [if_pos ⟨trivial, trivial, trivial, trivial, trivial,
      digitChar_isDigit _, digitChar_isDigit _, digitChar_isDigit _, digitChar_isDigit _,
      digitChar_isDigit _, digitChar_isDigit _, digitChar_isDigit _, digitChar_isDigit _,
      digitChar_isDigit _, digitChar_isDigit _, digitChar_isDigit _, digitChar_isDigit _,
      digitChar_isDigit _, digitChar_isDigit _⟩]
    rw [if_pos ⟨trivial, digitChar_isDigit _, digitChar_isDigit _, digitChar_isDigit _,
      digitChar_isDigit _, digitChar_isDigit _, digitChar_isDigit _⟩]
    simp only [Option.some.injEq, DateTime.mk.injEq]
    exact ⟨parse4 _ (by omega), parse2 _ (by omega), parse2 _ (by omega),
      parse2 _ (by omega), parse2 _ (by omega), parse2 _ (by omega),
      parse6 _ (by omega)⟩

theorem loadTask_saveTask (t : DTask) (hd : ∀ a ∈ t.date_debut, ValidDT a)
    (hf : ∀ b ∈ t.date_fin, ValidDT b) : loadTask (saveTask t) = some t := by
  rcases t with ⟨ti, st, pr, du, db, df⟩
  rcases db with _ | a <;> rcases df with _ | b
  · rfl
  · have hb := hf b rfl
    unfold loadTask saveTask parseDate
    simp only [Option.map_none', Option.map_some']
    rw [fromisoformat_isoformat b hb]
    rfl
  · have ha := hd a rfl
    unfold loadTask saveTask parseDate
    simp only [Option.map_none', Option.map_some']
    rw [fromisoformat_isoformat a ha]
    rfl
  · have ha := hd a rfl
    have hb := hf b rfl
    unfold loadTask saveTask parseDate
    simp only [Option.map_none', Option.map_some']
    rw [fromisoformat_isoformat a ha, fromisoformat_isoformat b hb]
    rfl

theorem loadTasks_saveTasks (l : List DTask)
    (h : ∀ t ∈ l, (∀ a ∈ t.date_debut, ValidDT a) ∧ ∀ b ∈ t.date_fin, ValidDT b) :
    loadTasks (l.map saveTask) = some l := by
  induction l with
  | nil => rfl
  | cons t ts ih =>
    rw [List.map_cons]
    show loadTasks (saveTask t :: ts.map saveTask) = some (t :: ts)
    unfold loadTasks
    rw [loadTask_saveTask t (h t (by simp)).1 (h t (by simp)).2,
      ih (fun t' h' => h t' (by simp [h']))]

/-- Claim C7: serializing a file store with `save_data` (dates to
ISO-8601 text) and reloading it with `load_data` (text parsed back to
dates) returns exactly the original mapping of zones to task lists, for
every store whose dates lie in the `datetime` domain. -/
theorem claim_C7_save_load_round_trip :
    ∀ s : DStore, ValidStore s → load_data (save_data s) = some s := by
  intro s h
  induction s with
  | nil => rfl
  | cons p rest ih =>
    obtain ⟨z, ts⟩ := p
    show load_data ((z, ts.map saveTask) :: save_data rest) = some ((z, ts) :: rest)
    unfold load_data
    rw [loadTasks_saveTasks ts (fun t ht => h (z, ts) (by simp) t ht),
      ih (fun q hq => h q (by simp [hq]))]

/-- Witness for claim C7: the concrete store `exDStore` is valid and
survives the save/load round trip unchanged. -/
theorem claim_C7_round_trip_witness :
    ValidStore exDStore ∧ load_data (save_data exDStore) = some exDStore := by
  have hv : ValidStore exDStore := by
    intro p hp t ht
    simp only [exDStore, List.mem_cons, List.not_mem_nil, or_false] at hp
    subst hp
    simp only [List.mem_cons, List.not_mem_nil, or_false] at ht
    rcases ht with rfl | rfl
    · exact ⟨by intro a ha; simp at ha, by intro b hb; simp at hb⟩
    · constructor
      · intro a ha
        simp only [Option.mem_def, Option.some.injEq] at ha
        subst ha
        refine ⟨?_, ?_, ?_, ?_, ?_, ?_, ?_, ?_, ?_, ?_⟩ <;> norm_num
      · intro b hb
        simp only [Option.mem_def, Option.some.injEq] at hb
        subst hb
        refine ⟨?_, ?_, ?_, ?_, ?_, ?_, ?_, ?_, ?_, ?_⟩ <;> norm_num
  exact ⟨hv, claim_C7_save_load_round_trip exDStore hv⟩
